import Mathlib

/-!
Verification of the animation core of the Munny 2D scene-animation engine.

The development shallowly embeds the animation subsystem:

* the easing module (`animation/base/easing.ts`) as functions over `ℝ`,
  with JS `number` arithmetic read as exact real arithmetic;
* the primitive transform animations (`animation/transforms/*.ts`) as
  functions computing the property value written by `tick`;
* the `SequenceAnimation` / `ParallelAnimation` combinators
  (`animation/base/combinators.ts`) as explicit state machines over `ℚ`
  that also record the trace of child lifecycle calls
  (`setup` / `tick` / `cleanup`) they emit;
* the color animations (`animation/transforms/style.ts`) including hex
  parsing and re-encoding over `String`.
-/

namespace Munny

/-! ## Easing functions (`animation/base/easing.ts`), over `ℝ` -/

noncomputable section Easing

/-- `clamp` from `core/math.ts`: `x < min ? min : x > max ? max : x`. -/
def clampR (x lo hi : ℝ) : ℝ := if x < lo then lo else if x > hi then hi else x

/-- `linear` easing: identity. -/
def linear (t : ℝ) : ℝ := t

/-- `easeIn`: quadratic ease-in, `t * t`. -/
def easeIn (t : ℝ) : ℝ := t * t

/-- `easeOut`: `1 - (1 - t) * (1 - t)`. -/
def easeOut (t : ℝ) : ℝ := 1 - (1 - t) * (1 - t)

/-- `easeInOut`: piecewise quadratic. -/
def easeInOut (t : ℝ) : ℝ :=
  if t < 1/2 then 2 * t * t else 1 - (-2 * t + 2) ^ 2 / 2

/-- `elastic`: endpoint-guarded exponential-decay oscillation.
The source guards `t === 0 || t === 1` and otherwise evaluates
`-(2 ^ (10 t - 10)) * sin((t * 10 - 10.75) * (2 pi / 3)) + 1`. -/
def elastic (t : ℝ) : ℝ :=
  if t = 0 ∨ t = 1 then t
  else -(2 : ℝ) ^ (10 * t - 10) * Real.sin ((t * 10 - 10.75) * (2 * Real.pi / 3)) + 1

/-- `bounce`: four-segment piecewise parabola with `n1 = 7.5625`, `d1 = 2.75`. -/
def bounce (t : ℝ) : ℝ :=
  if t < 1 / 2.75 then 7.5625 * t * t
  else if t < 2 / 2.75 then 7.5625 * (t - 1.5 / 2.75) * (t - 1.5 / 2.75) + 0.75
  else if t < 2.5 / 2.75 then 7.5625 * (t - 2.25 / 2.75) * (t - 2.25 / 2.75) + 0.9375
  else 7.5625 * (t - 2.625 / 2.75) * (t - 2.625 / 2.75) + 0.984375

/-- `spring`: `s = 1 - exp(-6 t) * (1 + 6 t)`, clamped as `s < 0 ? 0 : s > 1 ? 1 : s`. -/
def spring (t : ℝ) : ℝ :=
  let s := 1 - Real.exp (-6 * t) * (1 + 6 * t)
  if s < 0 then 0 else if s > 1 then 1 else s

/-- The fixed enumerated set of easing names (`EasingName` in `core/types.ts`). -/
inductive EasingName
  | linear
  | easeIn
  | easeOut
  | easeInOut
  | elastic
  | bounce
  | spring
deriving DecidableEq

/-- `getEasing`: resolve an easing name to its function (`EASINGS` map). -/
def getEasing : EasingName → (ℝ → ℝ)
  | .linear => linear
  | .easeIn => easeIn
  | .easeOut => easeOut
  | .easeInOut => easeInOut
  | .elastic => elastic
  | .bounce => bounce
  | .spring => spring

/-- `Animation.ease`: clamp `tNorm` to `[0,1]` then apply the configured easing
(`fn(tNorm < 0 ? 0 : tNorm > 1 ? 1 : tNorm)`). -/
def easeAt (name : EasingName) (tNorm : ℝ) : ℝ :=
  getEasing name (if tNorm < 0 then 0 else if tNorm > 1 then 1 else tNorm)

/-- `lerp` from `core/math.ts`: `a + (b - a) * t`. -/
def lerp (a b t : ℝ) : ℝ := a + (b - a) * t

/-! ## Primitive transform animations, over `ℝ`

Each primitive's `tick(tNorm)` computes `lerp(from, to, ease(tNorm))`
componentwise and writes it to its target property; we embed the value
written.  The `from` value is the one captured by `setup()` from the
target, and `to` is the stored target value. -/

/-- `RotateTo.tick`: writes `lerp(from, to, ease(tNorm))` to `rotation`. -/
def RotateTo.tick (from' to' : ℝ) (name : EasingName) (tNorm : ℝ) : ℝ :=
  lerp from' to' (easeAt name tNorm)

/-- `RotateBy.tick`: `setup` sets `to = from + delta`; `tick` lerps to it. -/
def RotateBy.tick (from' delta : ℝ) (name : EasingName) (tNorm : ℝ) : ℝ :=
  lerp from' (from' + delta) (easeAt name tNorm)

/-- `MoveTo.tick`: componentwise lerp of position (`mixVec2`). -/
def MoveTo.tick (fx fy tx ty : ℝ) (name : EasingName) (tNorm : ℝ) : ℝ × ℝ :=
  (lerp fx tx (easeAt name tNorm), lerp fy ty (easeAt name tNorm))

/-- `MoveBy.tick`: `setup` computes `to = from + delta` componentwise;
`tick` lerps to it (`mixVec2`). -/
def MoveBy.tick (fx fy dx dy : ℝ) (name : EasingName) (tNorm : ℝ) : ℝ × ℝ :=
  (lerp fx (fx + dx) (easeAt name tNorm), lerp fy (fy + dy) (easeAt name tNorm))

/-- `ScaleTo.tick`: componentwise lerp of scale (`mixVec2`). -/
def ScaleTo.tick (fx fy tx ty : ℝ) (name : EasingName) (tNorm : ℝ) : ℝ × ℝ :=
  (lerp fx tx (easeAt name tNorm), lerp fy ty (easeAt name tNorm))

/-- `ScaleBy.tick`: `setup` computes `to = from * factor` componentwise;
`tick` lerps to it. -/
def ScaleBy.tick (fx fy kx ky : ℝ) (name : EasingName) (tNorm : ℝ) : ℝ × ℝ :=
  (lerp fx (fx * kx) (easeAt name tNorm), lerp fy (fy * ky) (easeAt name tNorm))

/-- `OpacityTo` clamps its target opacity to `[0,1]` at construction. -/
def OpacityTo.target (opacity : ℝ) : ℝ := clampR opacity 0 1

/-- `OpacityTo.tick`: writes `lerp(from, to, ease(tNorm))` to `opacity`. -/
def OpacityTo.tick (from' to' : ℝ) (name : EasingName) (tNorm : ℝ) : ℝ :=
  lerp from' to' (easeAt name tNorm)

/-- `StrokeWidthTo.tick`: writes `lerp(from, to, ease(tNorm))`. -/
def StrokeWidthTo.tick (from' to' : ℝ) (name : EasingName) (tNorm : ℝ) : ℝ :=
  lerp from' to' (easeAt name tNorm)

end Easing

/-! ### Helper facts about the easings at the endpoints -/

lemma exp_neg_six_le_one_seventh : Real.exp (-6) ≤ 1/7 := by
  have h7 : (7:ℝ) ≤ Real.exp 6 := by
    have h := Real.add_one_le_exp (6 : ℝ)
    linarith
  rw [Real.exp_neg]
  calc (Real.exp 6)⁻¹ ≤ (7:ℝ)⁻¹ := inv_anti₀ (by norm_num) h7
    _ = 1/7 := by norm_num

lemma spring_one : spring 1 = 1 - Real.exp (-6) * 7 := by
  have hle : Real.exp (-6) ≤ 1/7 := exp_neg_six_le_one_seventh
  have hpos : (0:ℝ) < Real.exp (-6) := Real.exp_pos _
  have harg : (-6 : ℝ) * 1 = -6 := by norm_num
  simp only [spring, harg]
  rw [if_neg (by nlinarith), if_neg (by nlinarith)]
  ring

lemma spring_one_lt_one : spring 1 < 1 := by
  have hpos : (0:ℝ) < Real.exp (-6) := Real.exp_pos _
  rw [spring_one]
  nlinarith

lemma lerp_one (a b : ℝ) : lerp a b 1 = b := by
  simp [lerp]

lemma easeAt_one (name : EasingName) (hname : name ≠ EasingName.spring) :
    easeAt name 1 = 1 := by
  have hclamp : (if (1:ℝ) < 0 then (0:ℝ) else if (1:ℝ) > 1 then 1 else 1) = 1 := by
    norm_num
  cases name with
  | linear => simp [easeAt, getEasing, linear]
  | easeIn => simp only [easeAt, getEasing, hclamp, easeIn]; norm_num
  | easeOut => simp only [easeAt, getEasing, hclamp, easeOut]; norm_num
  | easeInOut =>
      simp only [easeAt, getEasing, hclamp, easeInOut]
      norm_num
  | elastic => simp [easeAt, getEasing, elastic]
  | bounce =>
      simp only [easeAt, getEasing, hclamp, bounce]
      norm_num
  | spring => exact absurd rfl hname

lemma easeAt_spring_one : easeAt EasingName.spring 1 = spring 1 := by
  have hclamp : (if (1:ℝ) < 0 then (0:ℝ) else if (1:ℝ) > 1 then 1 else 1) = 1 := by
    norm_num
  simp only [easeAt, getEasing, hclamp]

/-! ### C6 -/

/-- C6 counterexample: the `spring` easing does not map 1 to 1; its value at 1
is `1 - 7 * exp(-6) < 1`, so the claim "for every named easing function,
f(1) equals 1 exactly" fails at `spring`. -/
theorem spring_violates_endpoint_law : spring 1 ≠ 1 :=
  ne_of_lt spring_one_lt_one

/-- C6 (amended): every named easing maps 0 to 0 exactly, and every named
easing except `spring` maps 1 to 1 exactly; `spring` maps 1 to
`1 - 7 * exp(-6)`, which is strictly below 1. -/
theorem easing_endpoint_laws :
    (∀ name : EasingName, getEasing name 0 = 0) ∧
    (∀ name : EasingName, name ≠ EasingName.spring → getEasing name 1 = 1) ∧
    spring 1 = 1 - Real.exp (-6) * 7 ∧ spring 1 < 1 := by
  refine ⟨?_, ?_, spring_one, spring_one_lt_one⟩
  · intro name
    cases name with
    | linear => simp [getEasing, linear]
    | easeIn => simp [getEasing, easeIn]
    | easeOut => norm_num [getEasing, easeOut]
    | easeInOut => norm_num [getEasing, easeInOut]
    | elastic => simp [getEasing, elastic]
    | bounce => norm_num [getEasing, bounce]
    | spring =>
        simp only [getEasing, spring]
        norm_num
  · intro name hname
    have h := easeAt_one name hname
    have hclamp : (if (1:ℝ) < 0 then (0:ℝ) else if (1:ℝ) > 1 then 1 else 1) = 1 := by
      norm_num
    rw [easeAt, hclamp] at h
    exact h

/-- C6 witness: instantiating the amended law at `bounce`. -/
theorem easing_endpoint_laws_witness :
    EasingName.bounce ≠ EasingName.spring ∧ getEasing EasingName.bounce 1 = 1 :=
  ⟨by decide, easing_endpoint_laws.2.1 EasingName.bounce (by decide)⟩

/-! ### C1 -/

/-- C1 counterexample: `RotateTo` from rotation 0 to target 1 with the
`spring` easing: after `setup()` and `tick(1)` the rotation is
`spring(1) = 1 - 7 * exp(-6)`, not the target value 1. -/
theorem rotateTo_spring_tick_one_misses_target :
    RotateTo.tick 0 1 EasingName.spring 1 ≠ 1 := by
  have h : RotateTo.tick 0 1 EasingName.spring 1 = spring 1 := by
    rw [RotateTo.tick, easeAt_spring_one, lerp]
    ring
  rw [h]
  exact ne_of_lt spring_one_lt_one


/-! ## Combinators (`animation/base/combinators.ts`), over `ℚ`

The combinators never apply an easing themselves; their `tick` arithmetic is
plain rational arithmetic, so we embed it over `ℚ`.  A combinator only calls
its children's `setup` / `tick` / `cleanup`; we record those calls as an
event trace, with children identified by their position in the child list.
The mutable `started` / `cleaned` flag arrays are embedded as functions
`ℕ → Bool` (a JS array accepts any index). -/

/-- A lifecycle call a combinator makes on the child at position `i`. -/
inductive Event
  | setup (i : ℕ)
  | tick (i : ℕ) (t : ℚ)
  | cleanup (i : ℕ)
deriving DecidableEq

/-- The child position an event concerns. -/
def Event.index : Event → ℕ
  | .setup i => i
  | .tick i _ => i
  | .cleanup i => i

/-- Flip one flag to `true` (a JS `flags[i] = true` write). -/
def setFlag (f : ℕ → Bool) (i : ℕ) : ℕ → Bool := fun j => if j = i then true else f j

/-- The guarded `if (!flags[i]) { call(...); flags[i] = true }` pattern the
combinators use for lazy setup and idempotent cleanup: if the flag is
already set, nothing happens; otherwise the calls `ev` are made and the
flag is set. -/
def flagEvents (f : ℕ → Bool) (i : ℕ) (ev : List Event) : (ℕ → Bool) × List Event :=
  if f i then (f, []) else (setFlag f i, ev)

/-- Cumulative end times: the `ends` array built by the constructor loop,
carrying the accumulator `acc`. -/
def endsFrom (acc : ℚ) : List ℚ → List ℚ
  | [] => []
  | d :: ds => (acc + d) :: endsFrom (acc + d) ds

/-- State of a `SequenceAnimation` whose children have the given durations. -/
structure SeqState where
  durations : List ℚ
  ends : List ℚ
  total : ℚ
  started : ℕ → Bool
  cleaned : ℕ → Bool
  currentIndex : ℕ

/-- `SequenceAnimation` constructor: durations are read off the children,
`ends` holds the cumulative sums, `_duration` is the final accumulator, and
the flag arrays are filled with `false`. -/
def seqInit (ds : List ℚ) : SeqState :=
  let ends := endsFrom 0 ds
  { durations := ds, ends := ends, total := ends.getLastD 0,
    started := fun _ => false, cleaned := fun _ => false, currentIndex := 0 }

/-- `SequenceAnimation.setup`: does not set up any child; just resets the
current index and the flag arrays. -/
def seqSetup (s : SeqState) : SeqState × List Event :=
  ({ s with currentIndex := 0,
            started := fun _ => false,
            cleaned := fun _ => false }, [])

/-- The `while` loop at the top of `SequenceAnimation.tick`: finalize every
child whose cumulative end time is at or before `tAbs`.  `fuel` bounds the
iteration count (the loop advances `currentIndex` each round and stops at
the child count, so `durations.length` rounds always suffice). -/
def seqFinalize : ℕ → ℚ → SeqState → SeqState × List Event
  | 0, _, s => (s, [])
  | fuel+1, tAbs, s =>
    if s.currentIndex < s.durations.length ∧ s.ends.getD s.currentIndex 0 ≤ tAbs then
      let idx := s.currentIndex
      let p1 := flagEvents s.started idx [Event.setup idx]
      let p2 := flagEvents s.cleaned idx [Event.cleanup idx]
      let s' : SeqState :=
        { s with started := p1.1, cleaned := p2.1, currentIndex := idx + 1 }
      let rest := seqFinalize fuel tAbs s'
      (rest.1, p1.2 ++ [Event.tick idx 1] ++ p2.2 ++ rest.2)
    else (s, [])

/-- `SequenceAnimation.tick`: clamp `tNorm`, convert to absolute seconds,
finalize fully elapsed children, then lazily set up and tick the current
child at its clamped local time. -/
def seqTick (tNorm : ℚ) (s : SeqState) : SeqState × List Event :=
  let tAbs := min (max tNorm 0) 1 * s.total
  let r := seqFinalize s.durations.length tAbs s
  let s1 := r.1
  if s.durations.length ≤ s1.currentIndex then (s1, r.2)
  else
    let start := if s1.currentIndex = 0 then 0 else s1.ends.getD (s1.currentIndex - 1) 0
    let dur := s1.durations.getD s1.currentIndex 0
    let p2 := flagEvents s1.started s1.currentIndex [Event.setup s1.currentIndex]
    let localT := if 0 < dur then (tAbs - start) / dur else 1
    ({ s1 with started := p2.1 },
     r.2 ++ p2.2 ++ [Event.tick s1.currentIndex (min (max localT 0) 1)])

/-- One round of the `SequenceAnimation.cleanup` loop, for child `i`:
set it up if never started, then tick it to 1 and clean it if not yet
cleaned. -/
def seqCleanupStep (s : SeqState) (i : ℕ) : SeqState × List Event :=
  let p1 := flagEvents s.started i [Event.setup i]
  let p2 := flagEvents s.cleaned i [Event.tick i 1, Event.cleanup i]
  ({ s with started := p1.1, cleaned := p2.1 }, p1.2 ++ p2.2)

/-- Run `seqCleanupStep` over a list of child positions. -/
def seqCleanupGo (s : SeqState) : List ℕ → SeqState × List Event
  | [] => (s, [])
  | i :: is =>
    let r := seqCleanupStep s i
    let rest := seqCleanupGo r.1 is
    (rest.1, r.2 ++ rest.2)

/-- `SequenceAnimation.cleanup`: the loop over all children. -/
def seqCleanup (s : SeqState) : SeqState × List Event :=
  seqCleanupGo s (List.range s.durations.length)

/-- `SequenceAnimation.setDuration`: scale child durations by the
new-to-old ratio (flooring each at `0.000001`), push them to the children,
and recompute `ends` and the total. -/
def seqSetDuration (seconds : ℚ) (s : SeqState) : SeqState :=
  let old := s.total
  let factor := if 0 < seconds then seconds / old else (1/1000000) / old
  let ds := s.durations.map (fun d => max (d * factor) (1/1000000))
  { s with durations := ds, ends := endsFrom 0 ds,
           total := (endsFrom 0 ds).getLastD 0 }

/-- Run a list of `tick` calls on a sequence, accumulating the trace. -/
def seqRunTicks : List ℚ → SeqState → SeqState × List Event
  | [], s => (s, [])
  | t :: ts, s =>
    let r := seqTick t s
    let rest := seqRunTicks ts r.1
    (rest.1, r.2 ++ rest.2)

/-- State of a `ParallelAnimation` whose children have the given durations. -/
structure ParState where
  durations : List ℚ
  total : ℚ
  cleaned : ℕ → Bool

/-- `ParallelAnimation` constructor: total duration is the fold
`reduce((a, b) => a > b ? a : b, 0)` over the child durations. -/
def parInit (ds : List ℚ) : ParState :=
  { durations := ds,
    total := ds.foldl (fun a b => if a > b then a else b) 0,
    cleaned := fun _ => false }

/-- `ParallelAnimation.setup`: set up every child, in declaration order;
the combinator's own state is untouched. -/
def parSetup (s : ParState) : ParState × List Event :=
  (s, (List.range s.durations.length).map Event.setup)

/-- A child's local normalized time in `ParallelAnimation.tick`:
`d > 0 ? Math.min(tAbs / d, 1) : 1`. -/
def parLocalT (tAbs d : ℚ) : ℚ := if 0 < d then min (tAbs / d) 1 else 1

/-- One round of the `ParallelAnimation.tick` loop, for child `i`: tick it
at its local time, and clean it up the first time that local time is 1. -/
def parTickStep (tAbs : ℚ) (s : ParState) (i : ℕ) : ParState × List Event :=
  let localT := parLocalT tAbs (s.durations.getD i 0)
  if 1 ≤ localT ∧ s.cleaned i = false then
    ({ s with cleaned := setFlag s.cleaned i }, [Event.tick i localT, Event.cleanup i])
  else (s, [Event.tick i localT])

/-- Run `parTickStep` over a list of child positions. -/
def parTickGo (tAbs : ℚ) (s : ParState) : List ℕ → ParState × List Event
  | [] => (s, [])
  | i :: is =>
    let r := parTickStep tAbs s i
    let rest := parTickGo tAbs r.1 is
    (rest.1, r.2 ++ rest.2)

/-- `ParallelAnimation.tick`: clamp `tNorm`, convert to absolute seconds
against the parallel's own total, and run the per-child loop. -/
def parTick (tNorm : ℚ) (s : ParState) : ParState × List Event :=
  parTickGo (min (max tNorm 0) 1 * s.total) s (List.range s.durations.length)

/-- One round of the `ParallelAnimation.cleanup` loop, for child `i`. -/
def parCleanupStep (s : ParState) (i : ℕ) : ParState × List Event :=
  if s.cleaned i then (s, [])
  else ({ s with cleaned := setFlag s.cleaned i }, [Event.tick i 1, Event.cleanup i])

/-- Run `parCleanupStep` over a list of child positions. -/
def parCleanupGo (s : ParState) : List ℕ → ParState × List Event
  | [] => (s, [])
  | i :: is =>
    let r := parCleanupStep s i
    let rest := parCleanupGo r.1 is
    (rest.1, r.2 ++ rest.2)

/-- `ParallelAnimation.cleanup`: the loop over all children. -/
def parCleanup (s : ParState) : ParState × List Event :=
  parCleanupGo s (List.range s.durations.length)

/-- `ParallelAnimation.setDuration`: scale child durations by the ratio of
the request to the old maximum (flooring each at `0.000001`); the parallel's
own total becomes the request (floored at `0.000001`). -/
def parSetDuration (seconds : ℚ) (s : ParState) : ParState :=
  let oldMax := s.total
  let factor := if 0 < seconds then seconds / oldMax else (1/1000000) / oldMax
  { s with durations := s.durations.map (fun d => max (d * factor) (1/1000000)),
           total := if 0 < seconds then seconds else 1/1000000 }

/-- An externally driven call on a parallel combinator. -/
inductive ParOp
  | setup
  | tick (t : ℚ)

/-- Run a list of `setup` / `tick` calls on a parallel combinator. -/
def parRun : List ParOp → ParState → ParState × List Event
  | [], s => (s, [])
  | op :: ops, s =>
    let r := match op with
      | ParOp.setup => parSetup s
      | ParOp.tick t => parTick t s
    let rest := parRun ops r.1
    (rest.1, r.2 ++ rest.2)

/-- `Animation.setDuration` (base class): `seconds > 0 ? seconds : 0.000001`. -/
def Animation.setDuration (seconds : ℚ) : ℚ :=
  if 0 < seconds then seconds else 1/1000000

/-! ### C2 -/

/-- C2: a Sequence defers child `setup` until the child becomes active.
`SequenceAnimation.setup` itself sets up no child, and for `Sequence(a, b)`
with durations 1 and 1, `setup()` followed by `tick(0.25)` sets up and
ticks only child 0, at local time 0.5; child 1 has not been set up. -/
theorem sequence_lazy_setup :
    (∀ s : SeqState, (seqSetup s).2 = []) ∧
    ((seqTick (1/4) (seqSetup (seqInit [1, 1])).1).2
        = [Event.setup 0, Event.tick 0 (1/2)] ∧
     (seqTick (1/4) (seqSetup (seqInit [1, 1])).1).1.started 0 = true ∧
     (seqTick (1/4) (seqSetup (seqInit [1, 1])).1).1.started 1 = false ∧
     (seqTick (1/4) (seqSetup (seqInit [1, 1])).1).1.currentIndex = 0) := by
  refine ⟨fun s => rfl, ?_⟩
  norm_num [seqTick, seqSetup, seqInit, endsFrom, seqFinalize, setFlag, flagEvents]

/-! ### C3 -/

/-- C3: `ParallelAnimation.setup` sets up every child before any tick, and
for `Parallel(a, b)` with durations 1 and 3, `tick(1/3)` ticks child 0 at
local time 1 and cleans it up, ticks child 1 at local time 1/3 without
cleaning it up, and a repeated `tick(1/3)` does not clean child 0 a second
time. -/
theorem parallel_simultaneity :
    (∀ s : ParState, (parSetup s).1 = s ∧
      (parSetup s).2 = (List.range s.durations.length).map Event.setup) ∧
    ((parTick (1/3) (parSetup (parInit [1, 3])).1).2
        = [Event.tick 0 1, Event.cleanup 0, Event.tick 1 (1/3)] ∧
     (parTick (1/3) (parSetup (parInit [1, 3])).1).1.cleaned 0 = true ∧
     (parTick (1/3) (parSetup (parInit [1, 3])).1).1.cleaned 1 = false ∧
     (parTick (1/3) (parTick (1/3) (parSetup (parInit [1, 3])).1).1).2
        = [Event.tick 0 1, Event.tick 1 (1/3)] ∧
     ((parTick (1/3) (parSetup (parInit [1, 3])).1).2
        ++ (parTick (1/3) (parTick (1/3) (parSetup (parInit [1, 3])).1).1).2).count
          (Event.cleanup 0) = 1) := by
  refine ⟨fun s => ⟨rfl, rfl⟩, ?_⟩
  norm_num [parTick, parTickGo, parTickStep, parLocalT, parSetup, parInit,
    setFlag, List.range_succ, List.count_cons, List.count_append]
  decide

/-! ### C5 -/

lemma endsFrom_getLastD (ds : List ℚ) : ∀ a : ℚ, (endsFrom a ds).getLastD a = a + ds.sum := by
  induction ds with
  | nil => intro a; simp [endsFrom]
  | cons d tl ih =>
      intro a
      rw [endsFrom, List.getLastD_cons, ih (a + d), List.sum_cons]
      ring

lemma seqInit_total (ds : List ℚ) : (seqInit ds).total = ds.sum := by
  show (endsFrom 0 ds).getLastD 0 = ds.sum
  rw [endsFrom_getLastD, zero_add]

lemma sum_map_mul (ds : List ℚ) (c : ℚ) :
    (ds.map (fun d => d * c)).sum = ds.sum * c := by
  induction ds with
  | nil => simp
  | cons d tl ih => simp [ih]; ring

/-- C5: a Sequence's duration is the sum of its children's durations at
construction, and for a positive requested duration whose proportional
scaling keeps every child at or above the 0.000001 floor, `setDuration`
rescales every child by the new-to-old ratio and makes the total the
request; concretely, `Sequence` of durations 1, 2, 3 has duration 6, and
after `setDuration(12)` the children are 2, 4, 6 with total 12. -/
theorem sequence_duration_sum_and_rescale :
    (∀ ds : List ℚ, (seqInit ds).total = ds.sum) ∧
    (∀ (ds : List ℚ) (sNew : ℚ), 0 < sNew → 0 < ds.sum →
      (∀ d ∈ ds, (1:ℚ)/1000000 ≤ d * (sNew / ds.sum)) →
      (seqSetDuration sNew (seqInit ds)).durations
          = ds.map (fun d => d * (sNew / ds.sum)) ∧
      (seqSetDuration sNew (seqInit ds)).total = sNew) ∧
    ((seqInit [1, 2, 3]).total = 6 ∧
     (seqSetDuration 12 (seqInit [1, 2, 3])).durations = [2, 4, 6] ∧
     (seqSetDuration 12 (seqInit [1, 2, 3])).total = 12) := by
  refine ⟨seqInit_total, ?_, ?_⟩
  · intro ds sNew hs hsum hd
    have hfac : (if 0 < sNew then sNew / (seqInit ds).total else (1/1000000) / (seqInit ds).total)
        = sNew / ds.sum := by
      rw [if_pos hs, seqInit_total]
    have hmap : ds.map (fun d => max (d * (sNew / ds.sum)) (1/1000000))
        = ds.map (fun d => d * (sNew / ds.sum)) :=
      List.map_congr_left (fun d hdm => max_eq_left (hd d hdm))
    constructor
    · show ds.map (fun d => max (d * _) (1/1000000)) = _
      rw [hfac, hmap]
    · show (endsFrom 0 (ds.map (fun d => max (d * _) (1/1000000)))).getLastD 0 = sNew
      rw [hfac, hmap, endsFrom_getLastD, zero_add, sum_map_mul,
        mul_div_cancel₀ _ (ne_of_gt hsum)]
  · norm_num [seqSetDuration, seqInit, endsFrom]

/-- C5 witness: the rescaling law applied to durations 1, 2, 3 with
requested total 12. -/
theorem sequence_duration_sum_and_rescale_witness :
    (seqSetDuration 12 (seqInit [1, 2, 3])).durations
        = [1, 2, 3].map (fun d => d * (12 / ([1, 2, 3] : List ℚ).sum)) ∧
    (seqSetDuration 12 (seqInit [1, 2, 3])).total = 12 :=
  sequence_duration_sum_and_rescale.2.1 [1, 2, 3] 12 (by norm_num) (by norm_num)
    (by
      intro d hd
      simp only [List.mem_cons, List.not_mem_nil, or_false] at hd
      rcases hd with rfl | rfl | rfl <;> norm_num)

/-! ### C8 -/

/-- C8: requested durations are floored rather than rejected.  The base
`Animation.setDuration` keeps a positive request and floors a non-positive
one to 0.000001; `ParallelAnimation.setDuration` does the same for its
total; `SequenceAnimation.setDuration` leaves a strictly positive total for
any request (each rescaled child duration is floored at 0.000001), so the
duration is always a valid non-zero divisor at tick time. -/
theorem duration_always_positive :
    (∀ s : ℚ, 0 < s → Animation.setDuration s = s) ∧
    (∀ s : ℚ, s ≤ 0 → Animation.setDuration s = 1/1000000) ∧
    (∀ s : ℚ, 0 < Animation.setDuration s) ∧
    (∀ (s : ℚ) (st : ParState), 0 < s → (parSetDuration s st).total = s) ∧
    (∀ (s : ℚ) (st : ParState), s ≤ 0 → (parSetDuration s st).total = 1/1000000) ∧
    (∀ (s : ℚ) (st : ParState), 0 < (parSetDuration s st).total) ∧
    (∀ (s : ℚ) (st : SeqState), st.durations ≠ [] →
      0 < (seqSetDuration s st).total) := by
  have hq : (0:ℚ) < 1/1000000 := by norm_num
  refine ⟨?_, ?_, ?_, ?_, ?_, ?_, ?_⟩
  · intro s hs; rw [Animation.setDuration, if_pos hs]
  · intro s hs; rw [Animation.setDuration, if_neg (not_lt.mpr hs)]
  · intro s
    rw [Animation.setDuration]
    split_ifs with h
    · exact h
    · exact hq
  · intro s st hs; show (if 0 < s then s else 1/1000000) = s; rw [if_pos hs]
  · intro s st hs
    show (if 0 < s then s else 1/1000000) = 1/1000000
    rw [if_neg (not_lt.mpr hs)]
  · intro s st
    show 0 < (if 0 < s then s else 1/1000000)
    split_ifs with h
    · exact h
    · exact hq
  · intro s st hne
    show 0 < (endsFrom 0 (st.durations.map fun d => max (d * _) (1/1000000))).getLastD 0
    rw [endsFrom_getLastD, zero_add]
    refine List.sum_pos _ ?_ ?_
    · intro x hx
      rcases List.mem_map.mp hx with ⟨d, _, rfl⟩
      exact lt_of_lt_of_le hq (le_max_right _ _)
    · simpa using hne

/-- C8 witness: concrete instances of the flooring behavior. -/
theorem duration_always_positive_witness :
    Animation.setDuration 5 = 5 ∧
    Animation.setDuration (-1) = 1/1000000 ∧
    (parSetDuration 7 (parInit [1, 3])).total = 7 ∧
    (parSetDuration (-2) (parInit [1, 3])).total = 1/1000000 ∧
    0 < (seqSetDuration (-1) (seqInit [1, 2])).total :=
  ⟨duration_always_positive.1 5 (by norm_num),
   duration_always_positive.2.1 (-1) (by norm_num),
   duration_always_positive.2.2.2.1 7 (parInit [1, 3]) (by norm_num),
   duration_always_positive.2.2.2.2.1 (-2) (parInit [1, 3]) (by norm_num),
   duration_always_positive.2.2.2.2.2.2 (-1) (seqInit [1, 2]) (by simp [seqInit])⟩

/-! ### Invariant machinery for the Sequence combinator (C4, C9) -/

lemma setFlag_apply (f : ℕ → Bool) (i j : ℕ) :
    setFlag f i j = (f j || decide (j = i)) := by
  by_cases h : j = i <;> simp [setFlag, h]

/-- Invariant tying a sequence state to the trace accumulated after
`setup()` followed by any number of `tick` calls: the cleaned flags are
exactly the children strictly before the current index, each such child has
received exactly one `cleanup` call, and each was ticked to local time 1. -/
def SeqInv (s : SeqState) (h : List Event) : Prop :=
  (∀ j, s.cleaned j = true ↔ j < s.currentIndex) ∧
  (∀ j, h.count (Event.cleanup j) = if j < s.currentIndex then 1 else 0) ∧
  (∀ j, j < s.currentIndex → Event.tick j 1 ∈ h)

lemma flagEvents_fst (f : ℕ → Bool) (i : ℕ) (ev : List Event) (j : ℕ) :
    (flagEvents f i ev).1 j = (f j || decide (j = i)) := by
  by_cases h : f i
  · rw [flagEvents, if_pos h]
    by_cases hj : j = i
    · subst hj; simp [h]
    · simp [hj]
  · rw [flagEvents, if_neg h]
    exact setFlag_apply f i j

lemma flagEvents_snd_sub (f : ℕ → Bool) (i : ℕ) (ev : List Event) :
    ∀ e ∈ (flagEvents f i ev).2, e ∈ ev := by
  intro e he
  rw [flagEvents] at he
  split_ifs at he
  · simp at he
  · exact he

lemma flagEvents_count (f : ℕ → Bool) (i : ℕ) (ev : List Event) (a : Event) :
    (flagEvents f i ev).2.count a = if f i = true then 0 else ev.count a := by
  rw [flagEvents]
  split_ifs <;> simp

lemma flagEvents_snd_false {f : ℕ → Bool} {i : ℕ} (ev : List Event) (h : f i = false) :
    (flagEvents f i ev).2 = ev := by
  rw [flagEvents, if_neg (by simp [h])]

lemma flagEvents_snd_true {f : ℕ → Bool} {i : ℕ} (ev : List Event) (h : f i = true) :
    (flagEvents f i ev).2 = [] := by
  rw [flagEvents, if_pos h]

lemma seqFinalize_fixed (tAbs : ℚ) : ∀ (fuel : ℕ) (s : SeqState),
    (seqFinalize fuel tAbs s).1.durations = s.durations ∧
    (seqFinalize fuel tAbs s).1.ends = s.ends ∧
    (seqFinalize fuel tAbs s).1.total = s.total := by
  intro fuel
  induction fuel with
  | zero => exact fun s => ⟨rfl, rfl, rfl⟩
  | succ n ih =>
      intro s
      simp only [seqFinalize]
      split_ifs with hc
      · exact ih _
      · exact ⟨rfl, rfl, rfl⟩

lemma seqFinalize_mono (tAbs : ℚ) : ∀ (fuel : ℕ) (s : SeqState),
    s.currentIndex ≤ (seqFinalize fuel tAbs s).1.currentIndex ∧
    (∀ e ∈ (seqFinalize fuel tAbs s).2, s.currentIndex ≤ e.index) ∧
    (∀ j, s.cleaned j = true → (seqFinalize fuel tAbs s).1.cleaned j = true) := by
  intro fuel
  induction fuel with
  | zero => exact fun s => ⟨le_refl _, fun e he => absurd he (List.not_mem_nil e), fun j hj => hj⟩
  | succ n ih =>
      intro s
      simp only [seqFinalize]
      split_ifs with hc
      · obtain ⟨ih1, ih2, ih3⟩ := ih
          { s with started := (flagEvents s.started s.currentIndex [Event.setup s.currentIndex]).1,
                   cleaned := (flagEvents s.cleaned s.currentIndex [Event.cleanup s.currentIndex]).1,
                   currentIndex := s.currentIndex + 1 }
        refine ⟨le_trans (Nat.le_succ _) ih1, ?_, ?_⟩
        · intro e he
          simp only [List.mem_append] at he
          rcases he with ((h1 | h2) | h3) | h4
          · have h1' := flagEvents_snd_sub _ _ _ e h1
            simp only [List.mem_singleton] at h1'
            subst h1'
            exact le_refl _
          · simp only [List.mem_singleton] at h2
            subst h2
            exact le_refl _
          · have h3' := flagEvents_snd_sub _ _ _ e h3
            simp only [List.mem_singleton] at h3'
            subst h3'
            exact le_refl _
          · exact le_trans (Nat.le_succ _) (ih2 e h4)
        · intro j hj
          refine ih3 j ?_
          show (flagEvents s.cleaned s.currentIndex [Event.cleanup s.currentIndex]).1 j = true
          rw [flagEvents_fst, hj, Bool.true_or]
      · exact ⟨le_refl _, fun e he => absurd he (List.not_mem_nil e), fun j hj => hj⟩

lemma count_cleanup_flagSetup (f : ℕ → Bool) (i j : ℕ) :
    ((flagEvents f i [Event.setup i]).2).count (Event.cleanup j) = 0 := by
  rw [flagEvents_count]
  split_ifs <;> simp

lemma count_cleanup_tick (i j : ℕ) (t : ℚ) :
    ([Event.tick i t]).count (Event.cleanup j) = 0 := by
  simp

lemma count_cleanup_cleanup (i j : ℕ) :
    ([Event.cleanup i]).count (Event.cleanup j) = if j = i then 1 else 0 := by
  by_cases h : j = i <;> simp [h, List.count_cons, Ne.symm]

lemma seqFinalize_inv (tAbs : ℚ) : ∀ (fuel : ℕ) (s : SeqState) (h : List Event),
    SeqInv s h → SeqInv (seqFinalize fuel tAbs s).1 (h ++ (seqFinalize fuel tAbs s).2) := by
  intro fuel
  induction fuel with
  | zero => intro s h hinv; simpa [seqFinalize] using hinv
  | succ n ih =>
      intro s h hinv
      obtain ⟨inv1, inv2, inv3⟩ := hinv
      simp only [seqFinalize]
      split_ifs with hc
      · have hcl : s.cleaned s.currentIndex = false := by
          rcases Bool.eq_false_or_eq_true (s.cleaned s.currentIndex) with h' | h'
          · exact absurd ((inv1 _).mp h') (Nat.lt_irrefl _)
          · exact h'
        have hnew : SeqInv
            { s with
                started := (flagEvents s.started s.currentIndex [Event.setup s.currentIndex]).1,
                cleaned := (flagEvents s.cleaned s.currentIndex [Event.cleanup s.currentIndex]).1,
                currentIndex := s.currentIndex + 1 }
            (h ++ ((flagEvents s.started s.currentIndex [Event.setup s.currentIndex]).2
              ++ [Event.tick s.currentIndex 1]
              ++ (flagEvents s.cleaned s.currentIndex [Event.cleanup s.currentIndex]).2)) := by
          rw [flagEvents_snd_false _ hcl]
          refine ⟨?_, ?_, ?_⟩
          · intro j
            show (flagEvents s.cleaned s.currentIndex [Event.cleanup s.currentIndex]).1 j
                = true ↔ j < s.currentIndex + 1
            rw [flagEvents_fst]
            by_cases hj : j = s.currentIndex
            · subst hj
              simp
            · have : (decide (j = s.currentIndex)) = false := by simp [hj]
              rw [this, Bool.or_false, inv1 j]
              omega
          · intro j
            show (h ++ ((flagEvents s.started s.currentIndex [Event.setup s.currentIndex]).2
                ++ [Event.tick s.currentIndex 1]
                ++ [Event.cleanup s.currentIndex])).count (Event.cleanup j)
              = if j < s.currentIndex + 1 then 1 else 0
            rw [List.count_append, List.count_append, List.count_append, inv2 j,
              count_cleanup_flagSetup, count_cleanup_tick, count_cleanup_cleanup]
            split_ifs <;> omega
          · intro j hj
            rcases Nat.lt_succ_iff_lt_or_eq.mp hj with hlt | heq
            · exact List.mem_append_left _ (inv3 j hlt)
            · subst heq
              refine List.mem_append_right _ ?_
              refine List.mem_append_left _ ?_
              exact List.mem_append_right _ (List.mem_singleton_self _)
        have hrec := ih _ _ hnew
        rw [flagEvents_snd_false _ hcl] at *
        simp only [List.append_assoc] at hrec ⊢
        exact hrec
      · simpa using ⟨inv1, inv2, inv3⟩

lemma seqTick_fixed (t : ℚ) (s : SeqState) :
    (seqTick t s).1.durations = s.durations ∧ (seqTick t s).1.ends = s.ends ∧
    (seqTick t s).1.total = s.total := by
  obtain ⟨h1, h2, h3⟩ := seqFinalize_fixed (min (max t 0) 1 * s.total) s.durations.length s
  simp only [seqTick]
  split_ifs
  all_goals exact ⟨h1, h2, h3⟩

lemma seqTick_mono (t : ℚ) (s : SeqState) :
    s.currentIndex ≤ (seqTick t s).1.currentIndex ∧
    (∀ e ∈ (seqTick t s).2, s.currentIndex ≤ e.index) ∧
    (∀ j, s.cleaned j = true → (seqTick t s).1.cleaned j = true) := by
  obtain ⟨m1, m2, m3⟩ := seqFinalize_mono (min (max t 0) 1 * s.total) s.durations.length s
  simp only [seqTick]
  split_ifs
  all_goals first
    | exact ⟨m1, m2, m3⟩
    | · refine ⟨m1, ?_, m3⟩
        intro e he
        simp only [List.mem_append] at he
        rcases he with (h1 | h2) | h3
        · exact m2 e h1
        · have h2' := flagEvents_snd_sub _ _ _ e h2
          simp only [List.mem_singleton] at h2'
          subst h2'
          exact m1
        · simp only [List.mem_singleton] at h3
          subst h3
          exact m1

lemma seqTick_inv (t : ℚ) (s : SeqState) (h : List Event) (hinv : SeqInv s h) :
    SeqInv (seqTick t s).1 (h ++ (seqTick t s).2) := by
  have hfin := seqFinalize_inv (min (max t 0) 1 * s.total) s.durations.length s h hinv
  obtain ⟨f1, f2, f3⟩ := hfin
  simp only [seqTick]
  split_ifs
  all_goals first
    | exact ⟨f1, f2, f3⟩
    | · refine ⟨f1, ?_, ?_⟩
        · intro j
          have f2' := f2 j
          rw [List.count_append] at f2'
          show (h ++ ((seqFinalize _ _ s).2
              ++ (flagEvents _ _ [Event.setup _]).2 ++ [Event.tick _ _])).count (Event.cleanup j) = _
          rw [List.count_append, List.count_append, List.count_append,
            count_cleanup_flagSetup, count_cleanup_tick]
          simpa using f2'
        · intro j hj
          have hmem := f3 j hj
          rcases List.mem_append.mp hmem with h' | h'
          · exact List.mem_append_left _ h'
          · refine List.mem_append_right _ ?_
            exact List.mem_append_left _ (List.mem_append_left _ h')

lemma seqRunTicks_fixed : ∀ (ts : List ℚ) (s : SeqState),
    (seqRunTicks ts s).1.durations = s.durations ∧
    (seqRunTicks ts s).1.ends = s.ends ∧
    (seqRunTicks ts s).1.total = s.total := by
  intro ts
  induction ts with
  | nil => exact fun s => ⟨rfl, rfl, rfl⟩
  | cons t ts ih =>
      intro s
      obtain ⟨i1, i2, i3⟩ := ih (seqTick t s).1
      obtain ⟨t1, t2, t3⟩ := seqTick_fixed t s
      exact ⟨i1.trans t1, i2.trans t2, i3.trans t3⟩

lemma seqRunTicks_mono : ∀ (ts : List ℚ) (s : SeqState),
    s.currentIndex ≤ (seqRunTicks ts s).1.currentIndex ∧
    (∀ e ∈ (seqRunTicks ts s).2, s.currentIndex ≤ e.index) ∧
    (∀ j, s.cleaned j = true → (seqRunTicks ts s).1.cleaned j = true) := by
  intro ts
  induction ts with
  | nil => exact fun s => ⟨le_refl _, fun e he => absurd he (List.not_mem_nil e), fun j hj => hj⟩
  | cons t ts ih =>
      intro s
      obtain ⟨t1, t2, t3⟩ := seqTick_mono t s
      obtain ⟨i1, i2, i3⟩ := ih (seqTick t s).1
      refine ⟨le_trans t1 i1, ?_, fun j hj => i3 j (t3 j hj)⟩
      intro e he
      rcases List.mem_append.mp he with h' | h'
      · exact t2 e h'
      · exact le_trans t1 (i2 e h')

lemma seqRunTicks_inv : ∀ (ts : List ℚ) (s : SeqState) (h : List Event),
    SeqInv s h → SeqInv (seqRunTicks ts s).1 (h ++ (seqRunTicks ts s).2) := by
  intro ts
  induction ts with
  | nil => intro s h hinv; simpa [seqRunTicks] using hinv
  | cons t ts ih =>
      intro s h hinv
      have h1 := seqTick_inv t s h hinv
      have h2 := ih (seqTick t s).1 (h ++ (seqTick t s).2) h1
      simp only [seqRunTicks, List.append_assoc] at h2 ⊢
      exact h2

/-- After `setup()` the invariant holds with the empty trace. -/
lemma seqSetup_inv (s : SeqState) : SeqInv (seqSetup s).1 [] := by
  refine ⟨fun j => ?_, fun j => ?_, fun j hj => absurd hj (Nat.not_lt_zero j)⟩
  · show false = true ↔ j < 0
    simp
  · show List.count _ [] = if j < 0 then 1 else 0
    simp

/-- The state and trace of a Sequence after `setup()` and a list of `tick`
calls. -/
def seqScenario (ds ts : List ℚ) : SeqState × List Event :=
  seqRunTicks ts (seqSetup (seqInit ds)).1

lemma seqScenario_inv (ds ts : List ℚ) :
    SeqInv (seqScenario ds ts).1 (seqScenario ds ts).2 := by
  have h := seqRunTicks_inv ts (seqSetup (seqInit ds)).1 [] (seqSetup_inv _)
  simpa [seqScenario] using h

lemma seqScenario_durations (ds ts : List ℚ) :
    (seqScenario ds ts).1.durations = ds :=
  (seqRunTicks_fixed ts _).1

lemma seqCleanupStep_state (s : SeqState) (i : ℕ) :
    (seqCleanupStep s i).1.durations = s.durations ∧
    (seqCleanupStep s i).1.currentIndex = s.currentIndex ∧
    (∀ j, (seqCleanupStep s i).1.started j = (s.started j || decide (j = i))) ∧
    (∀ j, (seqCleanupStep s i).1.cleaned j = (s.cleaned j || decide (j = i))) :=
  ⟨rfl, rfl, fun j => flagEvents_fst _ _ _ j, fun j => flagEvents_fst _ _ _ j⟩

lemma seqCleanupStep_count (s : SeqState) (i j : ℕ) :
    (seqCleanupStep s i).2.count (Event.cleanup j)
      = if j = i ∧ s.cleaned i = false then 1 else 0 := by
  show ((flagEvents s.started i [Event.setup i]).2
      ++ (flagEvents s.cleaned i [Event.tick i 1, Event.cleanup i]).2).count
        (Event.cleanup j) = _
  rw [List.count_append, count_cleanup_flagSetup, flagEvents_count]
  rcases Bool.eq_false_or_eq_true (s.cleaned i) with hcl | hcl
  · simp [hcl]
  · rw [if_neg (by simp [hcl])]
    by_cases hj : j = i <;> simp [hj, hcl, List.count_cons]

lemma seqCleanupStep_tick_mem (s : SeqState) (i : ℕ) (h : s.cleaned i = false) :
    Event.tick i 1 ∈ (seqCleanupStep s i).2 := by
  show _ ∈ (flagEvents s.started i [Event.setup i]).2
      ++ (flagEvents s.cleaned i [Event.tick i 1, Event.cleanup i]).2
  refine List.mem_append_right _ ?_
  rw [flagEvents_snd_false _ h]
  exact List.mem_cons_self _ _

lemma seqCleanupStep_silent (s : SeqState) (i : ℕ)
    (h1 : s.started i = true) (h2 : s.cleaned i = true) :
    (seqCleanupStep s i).2 = [] := by
  show (flagEvents s.started i [Event.setup i]).2
      ++ (flagEvents s.cleaned i [Event.tick i 1, Event.cleanup i]).2 = []
  rw [flagEvents_snd_true _ h1, flagEvents_snd_true _ h2]
  rfl

lemma seqCleanupGo_spec : ∀ (is : List ℕ) (s : SeqState),
    ((seqCleanupGo s is).1.durations = s.durations ∧
     (seqCleanupGo s is).1.currentIndex = s.currentIndex) ∧
    (∀ j, (seqCleanupGo s is).1.started j = (s.started j || decide (j ∈ is))) ∧
    (∀ j, (seqCleanupGo s is).1.cleaned j = (s.cleaned j || decide (j ∈ is))) ∧
    (∀ j, (seqCleanupGo s is).2.count (Event.cleanup j)
        = if j ∈ is ∧ s.cleaned j = false then 1 else 0) ∧
    (∀ j, j ∈ is → s.cleaned j = false → Event.tick j 1 ∈ (seqCleanupGo s is).2) ∧
    ((∀ i ∈ is, s.started i = true ∧ s.cleaned i = true) → (seqCleanupGo s is).2 = []) := by
  intro is
  induction is with
  | nil =>
      intro s
      exact ⟨⟨rfl, rfl⟩, fun j => by simp [seqCleanupGo], fun j => by simp [seqCleanupGo],
        fun j => by simp [seqCleanupGo],
        fun j hj => absurd hj (List.not_mem_nil j), fun _ => rfl⟩
  | cons i is ih =>
      intro s
      obtain ⟨⟨e1, e2⟩, eSt, eCl, eCnt, eTick, eSil⟩ := ih (seqCleanupStep s i).1
      obtain ⟨s1, s4, sSt, sCl⟩ := seqCleanupStep_state s i
      refine ⟨⟨e1.trans s1, e2.trans s4⟩, ?_, ?_, ?_, ?_, ?_⟩
      · intro j
        show (seqCleanupGo (seqCleanupStep s i).1 is).1.started j = _
        rw [eSt j, sSt j]
        by_cases h1 : j = i <;> by_cases h2 : j ∈ is <;> simp [h1, h2, List.mem_cons]
      · intro j
        show (seqCleanupGo (seqCleanupStep s i).1 is).1.cleaned j = _
        rw [eCl j, sCl j]
        by_cases h1 : j = i <;> by_cases h2 : j ∈ is <;> simp [h1, h2, List.mem_cons]
      · intro j
        show ((seqCleanupStep s i).2
            ++ (seqCleanupGo (seqCleanupStep s i).1 is).2).count (Event.cleanup j) = _
        rw [List.count_append, seqCleanupStep_count, eCnt j, sCl j]
        by_cases h1 : j = i <;> by_cases h2 : j ∈ is <;>
          rcases Bool.eq_false_or_eq_true (s.cleaned j) with h3 | h3 <;>
          simp [h1, h2, h3, List.mem_cons]
      · intro j hj hcl
        by_cases h2 : j = i
        · subst h2
          exact List.mem_append_left _ (seqCleanupStep_tick_mem s j hcl)
        · rcases List.mem_cons.mp hj with h1 | h1
          · exact absurd h1 h2
          · refine List.mem_append_right _ ?_
            refine eTick j h1 ?_
            rw [sCl j]
            simp [h2, hcl]
      · intro hall
        show (seqCleanupStep s i).2
            ++ (seqCleanupGo (seqCleanupStep s i).1 is).2 = []
        have hi := hall i (List.mem_cons_self i is)
        rw [seqCleanupStep_silent s i hi.1 hi.2, List.nil_append]
        refine eSil ?_
        intro k hk
        have hk' := hall k (List.mem_cons_of_mem i hk)
        rw [sSt k, sCl k, hk'.1, hk'.2]
        simp

/-! ### Parallel-side machinery -/

lemma parLocalT_le_one (tAbs d : ℚ) : parLocalT tAbs d ≤ 1 := by
  rw [parLocalT]
  split_ifs
  · exact min_le_right _ _
  · exact le_refl 1

lemma parTickStep_state (tAbs : ℚ) (s : ParState) (i : ℕ) :
    (parTickStep tAbs s i).1.durations = s.durations ∧
    (parTickStep tAbs s i).1.total = s.total ∧
    (∀ j, (parTickStep tAbs s i).1.cleaned j
        = (s.cleaned j
            || (decide (j = i) && decide (1 ≤ parLocalT tAbs (s.durations.getD i 0))))) := by
  simp only [parTickStep]
  split_ifs with hc
  · refine ⟨rfl, rfl, fun j => ?_⟩
    show setFlag s.cleaned i j = _
    rw [setFlag_apply]
    have h1 : decide (1 ≤ parLocalT tAbs (s.durations.getD i 0)) = true := by
      simp only [decide_eq_true_eq]
      exact hc.1
    rw [h1, Bool.and_true]
  · refine ⟨rfl, rfl, fun j => ?_⟩
    show s.cleaned j = _
    by_cases hL : 1 ≤ parLocalT tAbs (s.durations.getD i 0)
    · have hcl : s.cleaned i = true := by
        rcases Bool.eq_false_or_eq_true (s.cleaned i) with h' | h'
        · exact h'
        · exact absurd ⟨hL, h'⟩ hc
      by_cases hj : j = i
      · subst hj
        rw [hcl]
        simp
      · simp [hj]
    · have h0 : decide (1 ≤ parLocalT tAbs (s.durations.getD i 0)) = false := by
        simp only [decide_eq_false_iff_not]
        exact hL
      rw [h0, Bool.and_false, Bool.or_false]

lemma parTickStep_pos (tAbs : ℚ) (s : ParState) (i : ℕ)
    (hstep : 1 ≤ parLocalT tAbs (s.durations.getD i 0) ∧ s.cleaned i = false) :
    parTickStep tAbs s i = ({ s with cleaned := setFlag s.cleaned i },
      [Event.tick i (parLocalT tAbs (s.durations.getD i 0)), Event.cleanup i]) := by
  simp only [parTickStep]
  rw [if_pos hstep]

lemma parTickStep_neg (tAbs : ℚ) (s : ParState) (i : ℕ)
    (hstep : ¬(1 ≤ parLocalT tAbs (s.durations.getD i 0) ∧ s.cleaned i = false)) :
    parTickStep tAbs s i = (s, [Event.tick i (parLocalT tAbs (s.durations.getD i 0))]) := by
  simp only [parTickStep]
  rw [if_neg hstep]

lemma parTickStep_count (tAbs : ℚ) (s : ParState) (i j : ℕ) :
    (parTickStep tAbs s i).2.count (Event.cleanup j)
      = if j = i ∧ 1 ≤ parLocalT tAbs (s.durations.getD i 0) ∧ s.cleaned i = false
        then 1 else 0 := by
  by_cases hstep : 1 ≤ parLocalT tAbs (s.durations.getD i 0) ∧ s.cleaned i = false
  · rw [parTickStep_pos tAbs s i hstep]
    by_cases hj : j = i
    · subst hj
      rw [if_pos ⟨rfl, hstep.1, hstep.2⟩]
      simp [List.count_cons]
    · rw [if_neg (fun hcond => hj hcond.1)]
      simp [List.count_cons, Ne.symm hj]
  · rw [parTickStep_neg tAbs s i hstep,
      if_neg (fun hcond => hstep ⟨hcond.2.1, hcond.2.2⟩)]
    simp

lemma parTickStep_tick_mem (tAbs : ℚ) (s : ParState) (i : ℕ) :
    Event.tick i (parLocalT tAbs (s.durations.getD i 0)) ∈ (parTickStep tAbs s i).2 := by
  simp only [parTickStep]
  split_ifs <;> simp

lemma parTickGo_spec : ∀ (is : List ℕ) (tAbs : ℚ) (s : ParState),
    ((parTickGo tAbs s is).1.durations = s.durations ∧
     (parTickGo tAbs s is).1.total = s.total) ∧
    (∀ j, (parTickGo tAbs s is).1.cleaned j
        = (s.cleaned j
            || (decide (j ∈ is) && decide (1 ≤ parLocalT tAbs (s.durations.getD j 0))))) ∧
    (∀ j, (parTickGo tAbs s is).2.count (Event.cleanup j)
        = if j ∈ is ∧ 1 ≤ parLocalT tAbs (s.durations.getD j 0) ∧ s.cleaned j = false
          then 1 else 0) ∧
    (∀ j, j ∈ is →
      Event.tick j (parLocalT tAbs (s.durations.getD j 0)) ∈ (parTickGo tAbs s is).2) := by
  intro is
  induction is with
  | nil =>
      intro tAbs s
      exact ⟨⟨rfl, rfl⟩, fun j => by simp [parTickGo], fun j => by simp [parTickGo],
        fun j hj => absurd hj (List.not_mem_nil j)⟩
  | cons i is ih =>
      intro tAbs s
      obtain ⟨st1, st2, stCl⟩ := parTickStep_state tAbs s i
      obtain ⟨⟨e1, e2⟩, eCl, eCnt, eTick⟩ := ih tAbs (parTickStep tAbs s i).1
      rw [st1] at eCl eCnt eTick
      refine ⟨⟨e1.trans st1, e2.trans st2⟩, ?_, ?_, ?_⟩
      · intro j
        show (parTickGo tAbs (parTickStep tAbs s i).1 is).1.cleaned j = _
        rw [eCl j, stCl j]
        by_cases h1 : j = i
        · subst h1
          by_cases h2 : j ∈ is <;>
            by_cases hL : 1 ≤ parLocalT tAbs (s.durations.getD j 0) <;>
            simp [h2, hL, List.mem_cons]
        · by_cases h2 : j ∈ is <;> simp [h1, h2, List.mem_cons]
      · intro j
        show ((parTickStep tAbs s i).2
            ++ (parTickGo tAbs (parTickStep tAbs s i).1 is).2).count (Event.cleanup j) = _
        rw [List.count_append, parTickStep_count, eCnt j, stCl j]
        by_cases h1 : j = i
        · subst h1
          by_cases hL : 1 ≤ parLocalT tAbs (s.durations.getD j 0) <;>
            by_cases h2 : j ∈ is <;>
            rcases Bool.eq_false_or_eq_true (s.cleaned j) with h3 | h3 <;>
            simp [h2, h3, hL, List.mem_cons]
        · by_cases h2 : j ∈ is <;>
            rcases Bool.eq_false_or_eq_true (s.cleaned j) with h3 | h3 <;>
            simp [h1, h2, h3, List.mem_cons]
      · intro j hj
        by_cases h1 : j = i
        · subst h1
          exact List.mem_append_left _ (parTickStep_tick_mem tAbs s j)
        · rcases List.mem_cons.mp hj with h2 | h2
          · exact absurd h2 h1
          · exact List.mem_append_right _ (eTick j h2)

/-- Invariant tying a parallel state to its accumulated trace: a child has
received exactly one `cleanup` call exactly when its cleaned flag is set,
and any cleaned child has been ticked to local time 1. -/
def ParInv (s : ParState) (h : List Event) : Prop :=
  (∀ j, h.count (Event.cleanup j) = if s.cleaned j = true then 1 else 0) ∧
  (∀ j, s.cleaned j = true → Event.tick j 1 ∈ h)

lemma parInit_inv (ds : List ℚ) : ParInv (parInit ds) [] := by
  refine ⟨fun j => ?_, fun j hj => ?_⟩
  · show List.count _ [] = if false = true then 1 else 0
    simp
  · exact absurd hj (by simp [parInit])

lemma count_cleanup_setups (n : ℕ) (j : ℕ) :
    ((List.range n).map Event.setup).count (Event.cleanup j) = 0 := by
  rw [List.count_eq_zero]
  intro hmem
  rcases List.mem_map.mp hmem with ⟨k, _, hk⟩
  exact Event.noConfusion hk

lemma parSetup_inv (s : ParState) (h : List Event) (hinv : ParInv s h) :
    ParInv (parSetup s).1 (h ++ (parSetup s).2) := by
  obtain ⟨i1, i2⟩ := hinv
  refine ⟨fun j => ?_, fun j hj => List.mem_append_left _ (i2 j hj)⟩
  show (h ++ (List.range s.durations.length).map Event.setup).count (Event.cleanup j) = _
  rw [List.count_append, count_cleanup_setups, Nat.add_zero]
  exact i1 j

lemma parTick_inv (t : ℚ) (s : ParState) (h : List Event) (hinv : ParInv s h) :
    ParInv (parTick t s).1 (h ++ (parTick t s).2) := by
  obtain ⟨i1, i2⟩ := hinv
  obtain ⟨⟨g1, g2⟩, gCl, gCnt, gTick⟩ :=
    parTickGo_spec (List.range s.durations.length) (min (max t 0) 1 * s.total) s
  constructor
  · intro j
    rw [List.count_append, i1 j]
    show _ + (parTickGo _ s _).2.count (Event.cleanup j) = _
    rw [gCnt j]
    show _ = if (parTick t s).1.cleaned j = true then 1 else 0
    rw [show (parTick t s).1 = (parTickGo (min (max t 0) 1 * s.total) s
      (List.range s.durations.length)).1 from rfl, gCl j]
    by_cases h1 : j ∈ List.range s.durations.length <;>
      by_cases hL : 1 ≤ parLocalT (min (max t 0) 1 * s.total) (s.durations.getD j 0) <;>
      rcases Bool.eq_false_or_eq_true (s.cleaned j) with h3 | h3 <;>
      simp [h1, hL, h3]
  · intro j hj
    rw [show (parTick t s).1 = (parTickGo (min (max t 0) 1 * s.total) s
      (List.range s.durations.length)).1 from rfl, gCl j] at hj
    rcases Bool.eq_false_or_eq_true (s.cleaned j) with h3 | h3
    · exact List.mem_append_left _ (i2 j h3)
    · rw [h3, Bool.false_or, Bool.and_eq_true, decide_eq_true_eq, decide_eq_true_eq] at hj
      have hL1 : parLocalT (min (max t 0) 1 * s.total) (s.durations.getD j 0) = 1 :=
        le_antisymm (parLocalT_le_one _ _) hj.2
      have := gTick j hj.1
      rw [hL1] at this
      exact List.mem_append_right _ this

lemma parRun_inv : ∀ (ops : List ParOp) (s : ParState) (h : List Event),
    ParInv s h → ParInv (parRun ops s).1 (h ++ (parRun ops s).2) := by
  intro ops
  induction ops with
  | nil => intro s h hinv; simpa [parRun] using hinv
  | cons op ops ih =>
      intro s h hinv
      cases op with
      | setup =>
          have h1 := parSetup_inv s h hinv
          have h2 := ih (parSetup s).1 (h ++ (parSetup s).2) h1
          simp only [parRun, List.append_assoc] at h2 ⊢
          exact h2
      | tick t =>
          have h1 := parTick_inv t s h hinv
          have h2 := ih (parTick t s).1 (h ++ (parTick t s).2) h1
          simp only [parRun, List.append_assoc] at h2 ⊢
          exact h2

lemma parRun_fixed : ∀ (ops : List ParOp) (s : ParState),
    (parRun ops s).1.durations = s.durations ∧ (parRun ops s).1.total = s.total := by
  intro ops
  induction ops with
  | nil => exact fun s => ⟨rfl, rfl⟩
  | cons op ops ih =>
      intro s
      cases op with
      | setup => exact ih s
      | tick t =>
          obtain ⟨⟨g1, g2⟩, _, _, _⟩ :=
            parTickGo_spec (List.range s.durations.length) (min (max t 0) 1 * s.total) s
          obtain ⟨i1, i2⟩ := ih (parTick t s).1
          exact ⟨i1.trans g1, i2.trans g2⟩

lemma parCleanupStep_state (s : ParState) (i : ℕ) :
    (parCleanupStep s i).1.durations = s.durations ∧
    (parCleanupStep s i).1.total = s.total ∧
    (∀ j, (parCleanupStep s i).1.cleaned j = (s.cleaned j || decide (j = i))) := by
  rw [parCleanupStep]
  split_ifs with hc
  · refine ⟨rfl, rfl, fun j => ?_⟩
    by_cases hj : j = i
    · subst hj
      rw [hc]
      simp
    · simp [hj]
  · refine ⟨rfl, rfl, fun j => ?_⟩
    show setFlag s.cleaned i j = _
    rw [setFlag_apply]

lemma parCleanupStep_count (s : ParState) (i j : ℕ) :
    (parCleanupStep s i).2.count (Event.cleanup j)
      = if j = i ∧ s.cleaned i = false then 1 else 0 := by
  rcases Bool.eq_false_or_eq_true (s.cleaned i) with hc | hc
  · rw [show parCleanupStep s i = (s, []) from by rw [parCleanupStep, if_pos hc],
      if_neg (fun hcond => absurd hcond.2 (by simp [hc]))]
    simp
  · rw [show parCleanupStep s i
        = ({ s with cleaned := setFlag s.cleaned i }, [Event.tick i 1, Event.cleanup i])
        from by rw [parCleanupStep, if_neg (by simp [hc])]]
    by_cases hj : j = i
    · subst hj
      rw [if_pos ⟨rfl, hc⟩]
      simp [List.count_cons]
    · rw [if_neg (fun hcond => hj hcond.1)]
      simp [List.count_cons, Ne.symm hj]

lemma parCleanupStep_tick_mem (s : ParState) (i : ℕ) (h : s.cleaned i = false) :
    Event.tick i 1 ∈ (parCleanupStep s i).2 := by
  rw [parCleanupStep, if_neg (by simp [h])]
  exact List.mem_cons_self _ _

lemma parCleanupStep_silent (s : ParState) (i : ℕ) (h : s.cleaned i = true) :
    (parCleanupStep s i).2 = [] := by
  rw [parCleanupStep, if_pos h]

lemma parCleanupGo_spec : ∀ (is : List ℕ) (s : ParState),
    ((parCleanupGo s is).1.durations = s.durations ∧
     (parCleanupGo s is).1.total = s.total) ∧
    (∀ j, (parCleanupGo s is).1.cleaned j = (s.cleaned j || decide (j ∈ is))) ∧
    (∀ j, (parCleanupGo s is).2.count (Event.cleanup j)
        = if j ∈ is ∧ s.cleaned j = false then 1 else 0) ∧
    (∀ j, j ∈ is → s.cleaned j = false → Event.tick j 1 ∈ (parCleanupGo s is).2) ∧
    ((∀ i ∈ is, s.cleaned i = true) → (parCleanupGo s is).2 = []) := by
  intro is
  induction is with
  | nil =>
      intro s
      exact ⟨⟨rfl, rfl⟩, fun j => by simp [parCleanupGo], fun j => by simp [parCleanupGo],
        fun j hj => absurd hj (List.not_mem_nil j), fun _ => rfl⟩
  | cons i is ih =>
      intro s
      obtain ⟨st1, st2, stCl⟩ := parCleanupStep_state s i
      obtain ⟨⟨e1, e2⟩, eCl, eCnt, eTick, eSil⟩ := ih (parCleanupStep s i).1
      refine ⟨⟨e1.trans st1, e2.trans st2⟩, ?_, ?_, ?_, ?_⟩
      · intro j
        show (parCleanupGo (parCleanupStep s i).1 is).1.cleaned j = _
        rw [eCl j, stCl j]
        by_cases h1 : j = i <;> by_cases h2 : j ∈ is <;> simp [h1, h2, List.mem_cons]
      · intro j
        show ((parCleanupStep s i).2
            ++ (parCleanupGo (parCleanupStep s i).1 is).2).count (Event.cleanup j) = _
        rw [List.count_append, parCleanupStep_count, eCnt j, stCl j]
        by_cases h1 : j = i <;> by_cases h2 : j ∈ is <;>
          rcases Bool.eq_false_or_eq_true (s.cleaned j) with h3 | h3 <;>
          simp [h1, h2, h3, List.mem_cons]
      · intro j hj hcl
        by_cases h1 : j = i
        · subst h1
          exact List.mem_append_left _ (parCleanupStep_tick_mem s j hcl)
        · rcases List.mem_cons.mp hj with h2 | h2
          · exact absurd h2 h1
          · refine List.mem_append_right _ ?_
            refine eTick j h2 ?_
            rw [stCl j]
            simp [h1, hcl]
      · intro hall
        show (parCleanupStep s i).2
            ++ (parCleanupGo (parCleanupStep s i).1 is).2 = []
        rw [parCleanupStep_silent s i (hall i (List.mem_cons_self i is)), List.nil_append]
        refine eSil ?_
        intro k hk
        rw [stCl k, hall k (List.mem_cons_of_mem i hk)]
        simp

/-- The state and trace of a Parallel after any interleaving of `setup()`
and `tick` calls. -/
def parScenario (ds : List ℚ) (ops : List ParOp) : ParState × List Event :=
  parRun ops (parInit ds)

lemma parScenario_inv (ds : List ℚ) (ops : List ParOp) :
    ParInv (parScenario ds ops).1 (parScenario ds ops).2 := by
  have h := parRun_inv ops (parInit ds) [] (parInit_inv ds)
  simpa [parScenario] using h

lemma parScenario_durations (ds : List ℚ) (ops : List ParOp) :
    (parScenario ds ops).1.durations = ds :=
  (parRun_fixed ops _).1

lemma seqCleanup_def (s : SeqState) :
    seqCleanup s = seqCleanupGo s (List.range s.durations.length) := rfl

lemma parCleanup_def (s : ParState) :
    parCleanup s = parCleanupGo s (List.range s.durations.length) := rfl

/-! ### C4 -/

/-- C4 counterexample: for a Sequence with one child of duration 1, the call
interleaving `setup(); tick(1); setup(); cleanup()` invokes the child's
`cleanup()` twice in total, because the second `setup()` resets the
idempotency flags.  This falsifies the claim for arbitrary interleavings of
`setup()` and `tick()`. -/
theorem seq_resetup_double_cleanup :
    ((seqTick 1 (seqSetup (seqInit [1])).1).2
      ++ (seqCleanup (seqSetup (seqTick 1 (seqSetup (seqInit [1])).1).1).1).2).count
        (Event.cleanup 0) = 2 := by
  norm_num [seqTick, seqSetup, seqInit, seqFinalize, seqCleanup, seqCleanupGo,
    seqCleanupStep, endsFrom, flagEvents, setFlag, List.range_succ,
    List.count_cons, List.count_append]
  decide

/-- C4 (amended): after a single `setup()` followed by any sequence of
`tick()` calls on a Sequence — or any interleaving of `setup()` and
`tick()` calls on a Parallel, whose `setup()` does not reset the cleanup
flags — calling `cleanup()` leaves every child ticked to local time 1 with
its `cleanup()` invoked exactly once in total, and a second `cleanup()`
invokes nothing.  (For a Sequence, a repeated `setup()` resets the
idempotency flags, so the guarantee does not extend to interleavings that
call `setup()` again after a tick finalized a child.) -/
theorem composite_cleanup_exactly_once (ds : List ℚ) :
    (∀ (ts : List ℚ) (i : ℕ), i < ds.length →
      ((seqScenario ds ts).2 ++ (seqCleanup (seqScenario ds ts).1).2).count
          (Event.cleanup i) = 1 ∧
      Event.tick i 1 ∈ (seqScenario ds ts).2 ++ (seqCleanup (seqScenario ds ts).1).2 ∧
      (seqCleanup (seqCleanup (seqScenario ds ts).1).1).2 = []) ∧
    (∀ (ops : List ParOp) (i : ℕ), i < ds.length →
      ((parScenario ds ops).2 ++ (parCleanup (parScenario ds ops).1).2).count
          (Event.cleanup i) = 1 ∧
      Event.tick i 1 ∈ (parScenario ds ops).2 ++ (parCleanup (parScenario ds ops).1).2 ∧
      (parCleanup (parCleanup (parScenario ds ops).1).1).2 = []) := by
  constructor
  · intro ts i hi
    obtain ⟨inv1, inv2, inv3⟩ := seqScenario_inv ds ts
    have hdur := seqScenario_durations ds ts
    obtain ⟨⟨g1, g2⟩, gSt, gCl, gCnt, gTick, gSil⟩ :=
      seqCleanupGo_spec (List.range (seqScenario ds ts).1.durations.length)
        (seqScenario ds ts).1
    have hmem : i ∈ List.range (seqScenario ds ts).1.durations.length := by
      rw [List.mem_range, hdur]
      exact hi
    refine ⟨?_, ?_, ?_⟩
    · rw [List.count_append, inv2 i, seqCleanup_def, gCnt i]
      rcases Bool.eq_false_or_eq_true ((seqScenario ds ts).1.cleaned i) with hcl | hcl
      · rw [if_pos ((inv1 i).mp hcl), if_neg (by simp [hcl])]
      · rw [if_neg (fun hlt => absurd ((inv1 i).mpr hlt) (by simp [hcl])),
          if_pos ⟨hmem, hcl⟩]
    · rcases Bool.eq_false_or_eq_true ((seqScenario ds ts).1.cleaned i) with hcl | hcl
      · exact List.mem_append_left _ (inv3 i ((inv1 i).mp hcl))
      · rw [seqCleanup_def]
        exact List.mem_append_right _ (gTick i hmem hcl)
    · rw [seqCleanup_def, seqCleanup_def]
      obtain ⟨⟨_, _⟩, _, _, _, _, gSil2⟩ :=
        seqCleanupGo_spec
          (List.range (seqCleanupGo (seqScenario ds ts).1
            (List.range (seqScenario ds ts).1.durations.length)).1.durations.length)
          (seqCleanupGo (seqScenario ds ts).1
            (List.range (seqScenario ds ts).1.durations.length)).1
      refine gSil2 ?_
      intro k hk
      rw [g1] at hk
      constructor
      · rw [gSt k]
        simp [List.mem_range.mp hk]
      · rw [gCl k]
        simp [List.mem_range.mp hk]
  · intro ops i hi
    obtain ⟨i1, i2⟩ := parScenario_inv ds ops
    have hdur := parScenario_durations ds ops
    obtain ⟨⟨g1, g2⟩, gCl, gCnt, gTick, gSil⟩ :=
      parCleanupGo_spec (List.range (parScenario ds ops).1.durations.length)
        (parScenario ds ops).1
    have hmem : i ∈ List.range (parScenario ds ops).1.durations.length := by
      rw [List.mem_range, hdur]
      exact hi
    refine ⟨?_, ?_, ?_⟩
    · rw [List.count_append, i1 i, parCleanup_def, gCnt i]
      rcases Bool.eq_false_or_eq_true ((parScenario ds ops).1.cleaned i) with hcl | hcl
      · rw [if_pos hcl, if_neg (by simp [hcl])]
      · rw [if_neg (by simp [hcl]), if_pos ⟨hmem, hcl⟩]
    · rcases Bool.eq_false_or_eq_true ((parScenario ds ops).1.cleaned i) with hcl | hcl
      · exact List.mem_append_left _ (i2 i hcl)
      · rw [parCleanup_def]
        exact List.mem_append_right _ (gTick i hmem hcl)
    · rw [parCleanup_def, parCleanup_def]
      obtain ⟨⟨_, _⟩, _, _, _, gSil2⟩ :=
        parCleanupGo_spec
          (List.range (parCleanupGo (parScenario ds ops).1
            (List.range (parScenario ds ops).1.durations.length)).1.durations.length)
          (parCleanupGo (parScenario ds ops).1
            (List.range (parScenario ds ops).1.durations.length)).1
      refine gSil2 ?_
      intro k hk
      rw [g1] at hk
      rw [gCl k]
      simp [List.mem_range.mp hk]

/-- C4 witness: the cleanup guarantee instantiated for a Sequence of
durations 1, 1 after `setup()` and `tick(1/2)`, and for a Parallel of
durations 1, 1 after `setup()` and `tick(1/2)`, looking at child 0. -/
theorem composite_cleanup_exactly_once_witness :
    (((seqScenario [1, 1] [1/2]).2
        ++ (seqCleanup (seqScenario [1, 1] [1/2]).1).2).count (Event.cleanup 0) = 1 ∧
      Event.tick 0 1 ∈ (seqScenario [1, 1] [1/2]).2
        ++ (seqCleanup (seqScenario [1, 1] [1/2]).1).2 ∧
      (seqCleanup (seqCleanup (seqScenario [1, 1] [1/2]).1).1).2 = []) ∧
    (((parScenario [1, 1] [ParOp.setup, ParOp.tick (1/2)]).2
        ++ (parCleanup (parScenario [1, 1] [ParOp.setup, ParOp.tick (1/2)]).1).2).count
          (Event.cleanup 0) = 1 ∧
      Event.tick 0 1 ∈ (parScenario [1, 1] [ParOp.setup, ParOp.tick (1/2)]).2
        ++ (parCleanup (parScenario [1, 1] [ParOp.setup, ParOp.tick (1/2)]).1).2 ∧
      (parCleanup (parCleanup
        (parScenario [1, 1] [ParOp.setup, ParOp.tick (1/2)]).1).1).2 = []) :=
  ⟨(composite_cleanup_exactly_once [1, 1]).1 [1/2] 0 (by norm_num),
   (composite_cleanup_exactly_once [1, 1]).2 [ParOp.setup, ParOp.tick (1/2)] 0
     (by norm_num)⟩

/-! ### C9 -/

/-- C9: a Sequence never reactivates a finalized child.  After `setup()`
and any ticks, any further sequence of `tick` calls (with times that may
decrease) never decreases the current child index, and a child whose
cleaned flag is set receives no further `setup` / `tick` / `cleanup`
call from any later `tick`. -/
theorem sequence_never_reactivates (ds ts ts' : List ℚ) :
    (seqScenario ds ts).1.currentIndex
        ≤ (seqRunTicks ts' (seqScenario ds ts).1).1.currentIndex ∧
    (∀ i, (seqScenario ds ts).1.cleaned i = true →
      (seqRunTicks ts' (seqScenario ds ts).1).2.filter
        (fun e => decide (Event.index e = i)) = []) := by
  obtain ⟨m1, m2, m3⟩ := seqRunTicks_mono ts' (seqScenario ds ts).1
  obtain ⟨inv1, inv2, inv3⟩ := seqScenario_inv ds ts
  refine ⟨m1, ?_⟩
  intro i hi
  have hlt : i < (seqScenario ds ts).1.currentIndex := (inv1 i).mp hi
  rw [List.filter_eq_nil_iff]
  intro e he
  have hge := m2 e he
  simp only [decide_eq_true_eq]
  omega

/-- C9 witness: for `Sequence` of durations 1 and 1, after `setup()` and
`tick(1/2)` (which finalizes child 0), a further `tick(1/4)` keeps the
current index at 1 and emits no event for child 0. -/
theorem sequence_never_reactivates_witness :
    (seqScenario [1, 1] [1/2]).1.currentIndex
        ≤ (seqRunTicks [1/4] (seqScenario [1, 1] [1/2]).1).1.currentIndex ∧
    (seqRunTicks [1/4] (seqScenario [1, 1] [1/2]).1).2.filter
        (fun e => decide (Event.index e = 0)) = [] :=
  ⟨(sequence_never_reactivates [1, 1] [1/2] [1/4]).1,
   (sequence_never_reactivates [1, 1] [1/2] [1/4]).2 0 (by
      norm_num [seqScenario, seqRunTicks, seqTick, seqFinalize, seqSetup,
        seqInit, endsFrom, flagEvents, setFlag])⟩

/-! ## Color animations (`animation/transforms/style.ts`)

`FillColorTo` and `StrokeColorTo` run the same algorithm (they differ only
in which property of the target they read and write, and in the default
`from`/`to` fields); we embed the algorithm once as `ColorAnim`.  Channel
values are JS numbers, embedded as `ℚ`.  `setup` and `tick` return the
color string written to the target (`none` = no write, so the property is
left unchanged). -/

/-- RGBA tuple with components in `[0, 255]`. -/
structure Rgba where
  r : ℚ
  g : ℚ
  b : ℚ
  a : ℚ
deriving DecidableEq

/-- Value of one hex digit character, if it is one. -/
def hexDigitVal (c : Char) : Option ℕ :=
  if '0' ≤ c ∧ c ≤ '9' then some (c.toNat - '0'.toNat)
  else if 'a' ≤ c ∧ c ≤ 'f' then some (c.toNat - 'a'.toNat + 10)
  else if 'A' ≤ c ∧ c ≤ 'F' then some (c.toNat - 'A'.toNat + 10)
  else none

/-- The ECMAScript `StrWhiteSpace` characters trimmed by `parseInt`:
WhiteSpace (tab, VT, FF, space, NBSP, BOM and the Unicode `Zs` space
separators) together with the LineTerminators (LF, CR, LS, PS). -/
def isJsWhitespace (c : Char) : Bool :=
  c.toNat = 0x09 || c.toNat = 0x0a || c.toNat = 0x0b || c.toNat = 0x0c ||
  c.toNat = 0x0d || c.toNat = 0x20 || c.toNat = 0xa0 || c.toNat = 0x1680 ||
  (0x2000 ≤ c.toNat && c.toNat ≤ 0x200a) || c.toNat = 0x2028 ||
  c.toNat = 0x2029 || c.toNat = 0x202f || c.toNat = 0x205f ||
  c.toNat = 0x3000 || c.toNat = 0xfeff

/-- Model of `Number.parseInt(s, 16)` on a two-character slice `[c1, c2]`,
following the ECMAScript algorithm: trim leading whitespace, consume an
optional `+`/`-` sign, strip a `0x`/`0X` prefix, then parse the longest
prefix of hex digits — `NaN` (here `none`) when no digit remains, and a
negative value under a `-` sign.  With only two characters: a leading
whitespace or sign character leaves a single-character parse of `c2`;
`"0x"`/`"0X"` strips to the empty string and is `NaN`; otherwise the usual
one- or two-digit parse applies. -/
def parseInt2 (c1 c2 : Char) : Option ℤ :=
  if isJsWhitespace c1 then
    (hexDigitVal c2).map (fun v => (v : ℤ))
  else if c1 = '+' then
    (hexDigitVal c2).map (fun v => (v : ℤ))
  else if c1 = '-' then
    (hexDigitVal c2).map (fun v => -(v : ℤ))
  else
    match hexDigitVal c1 with
    | none => none
    | some v1 =>
      if c1 = '0' ∧ (c2 = 'x' ∨ c2 = 'X') then none
      else
        match hexDigitVal c2 with
        | some v2 => some ((16 * v1 + v2 : ℕ) : ℤ)
        | none => some (v1 : ℤ)

/-- `parseHex`: accept `#RRGGBB` or `#RRGGBBAA`, else `null`.  The empty
string and strings not starting with `#` are rejected up front.  Each
two-character slice goes through `parseInt2`, and the source rejects only
`NaN` results, so slices such as `"-2"` produce (negative) numeric
channels just as in JS. -/
def parseHex (color : String) : Option Rgba :=
  match color.toList with
  | '#' :: hex =>
    if hex.length = 6 ∨ hex.length = 8 then
      match parseInt2 (hex.getD 0 ' ') (hex.getD 1 ' '),
            parseInt2 (hex.getD 2 ' ') (hex.getD 3 ' '),
            parseInt2 (hex.getD 4 ' ') (hex.getD 5 ' '),
            (if hex.length = 8 then parseInt2 (hex.getD 6 ' ') (hex.getD 7 ' ')
             else some 255) with
      | some r, some g, some b, some a => some ⟨(r : ℚ), (g : ℚ), (b : ℚ), (a : ℚ)⟩
      | _, _, _, _ => none
    else none
  | _ => none

/-- `Math.round`: round half up, `⌊x + 1/2⌋`. -/
def roundJS (x : ℚ) : ℤ := ⌊x + 1/2⌋

/-- One channel as written by `toHex`: `clamp(Math.round(x), 0, 255)`. -/
def toHexChannel (x : ℚ) : ℕ := (max 0 (min (roundJS x) 255)).toNat

/-- One clamped channel as two lowercase hex digits
(`n.toString(16).padStart(2, '0')` for `n ≤ 255`). -/
def hexDigitChar (n : ℕ) : Char :=
  if n < 10 then Char.ofNat ('0'.toNat + n) else Char.ofNat ('a'.toNat + (n - 10))

/-- Two hex digits of a channel value below 256. -/
def hh (n : ℕ) : List Char := [hexDigitChar (n / 16), hexDigitChar (n % 16)]

/-- `toHex`: compose `#rrggbb` from an RGBA value, ignoring alpha. -/
def toHex (c : Rgba) : String :=
  String.mk ('#' :: (hh (toHexChannel c.r) ++ hh (toHexChannel c.g) ++ hh (toHexChannel c.b)))

/-- `lerp` from `core/math.ts`, over `ℚ` for the color channels. -/
def lerpQ (a b t : ℚ) : ℚ := a + (b - a) * t

/-- Shared state of `FillColorTo` / `StrokeColorTo`. -/
structure ColorAnim where
  targetColor : String
  from' : Rgba
  to' : Rgba
  canLerp : Bool
deriving DecidableEq

/-- `FillColorTo` constructor: stores the target color; `from`/`to` default
to white, `canLerp` to false. -/
def FillColorTo.init (color : String) : ColorAnim :=
  ⟨color, ⟨255, 255, 255, 255⟩, ⟨255, 255, 255, 255⟩, false⟩

/-- `StrokeColorTo` constructor: like `FillColorTo` with black defaults. -/
def StrokeColorTo.init (color : String) : ColorAnim :=
  ⟨color, ⟨0, 0, 0, 255⟩, ⟨0, 0, 0, 255⟩, false⟩

/-- `FillColorTo.setup` / `StrokeColorTo.setup`: parse both endpoints
(`cur ? parseHex(cur) : null` agrees with `cur.bind parseHex` since the
empty string also fails to parse); record `canLerp`; return the color
written to the target, or `none` when nothing is written. -/
def ColorAnim.setup (anim : ColorAnim) (cur : Option String) : ColorAnim × Option String :=
  let fromParsed := cur.bind parseHex
  let toParsed := parseHex anim.targetColor
  let canLerp := fromParsed.isSome && toParsed.isSome
  let a1 := { anim with canLerp := canLerp, to' := toParsed.getD anim.to' }
  match fromParsed, toParsed with
  | some f, _ => ({ a1 with from' := f }, some (toHex f))
  | none, some tp => ({ a1 with from' := tp }, some (toHex tp))
  | none, none => (a1, none)

/-- `FillColorTo.tick` / `StrokeColorTo.tick`: ease the clamped time with
the configured easing function `f` (as `Animation.ease` does), then either
interpolate all four channels and write the re-encoded hex string, or — in
degraded mode — write the raw target color once eased time reaches 1. -/
def ColorAnim.tick (anim : ColorAnim) (f : ℚ → ℚ) (tNorm : ℚ) : Option String :=
  let t := f (if tNorm < 0 then 0 else if tNorm > 1 then 1 else tNorm)
  if anim.canLerp then
    some (toHex ⟨lerpQ anim.from'.r anim.to'.r t, lerpQ anim.from'.g anim.to'.g t,
                 lerpQ anim.from'.b anim.to'.b t, lerpQ anim.from'.a anim.to'.a t⟩)
  else if 1 ≤ t then some anim.targetColor else none

/-! ### C7 -/

/-- C7 counterexample: with current fill `"red"` (not hex-parseable) and
target `"#00ff00"` (parseable), `setup()` immediately writes the target
color to the property — the property is not left unchanged by `setup()`. -/
theorem colorTo_setup_overwrites_unparseable_current :
    (ColorAnim.setup (FillColorTo.init "#00ff00") (some "red")).2 = some "#00ff00" ∧
    "#00ff00" ≠ "red" := by
  constructor
  · have hfrom : (some "red").bind parseHex = none := rfl
    have hto : parseHex "#00ff00" = some (⟨0, 255, 0, 255⟩ : Rgba) := rfl
    simp only [ColorAnim.setup, FillColorTo.init, hfrom, hto]
    norm_num [toHex, toHexChannel, roundJS, hh, hexDigitChar, Int.toNat_ofNat]
    decide
  · decide

/-- C7 (amended): when either color endpoint is not hex-parseable, no
interpolation occurs: `canLerp` is false, every `tick` with eased time
below 1 writes nothing, and a `tick` whose eased time reaches 1 writes the
raw target color.  `setup()` leaves the property untouched only when both
endpoints fail to parse; when exactly one endpoint parses, `setup()`
rewrites the property to that endpoint's normalized `#rrggbb` form (the
current color if it parses, otherwise the target color). -/
theorem color_degraded_mode (anim : ColorAnim) (cur : Option String)
    (hun : cur.bind parseHex = none ∨ parseHex anim.targetColor = none) :
    (ColorAnim.setup anim cur).1.canLerp = false ∧
    (∀ (f : ℚ → ℚ) (t : ℚ), f (if t < 0 then 0 else if t > 1 then 1 else t) < 1 →
      ColorAnim.tick (ColorAnim.setup anim cur).1 f t = none) ∧
    (∀ (f : ℚ → ℚ) (t : ℚ), 1 ≤ f (if t < 0 then 0 else if t > 1 then 1 else t) →
      ColorAnim.tick (ColorAnim.setup anim cur).1 f t = some anim.targetColor) ∧
    (cur.bind parseHex = none → parseHex anim.targetColor = none →
      (ColorAnim.setup anim cur).2 = none) ∧
    (∀ fp, cur.bind parseHex = some fp →
      (ColorAnim.setup anim cur).2 = some (toHex fp)) ∧
    (∀ tp, cur.bind parseHex = none → parseHex anim.targetColor = some tp →
      (ColorAnim.setup anim cur).2 = some (toHex tp)) := by
  rcases hfrom : cur.bind parseHex with _ | fp <;>
    rcases hto : parseHex anim.targetColor with _ | tp
  · refine ⟨?_, ?_, ?_, ?_, ?_, ?_⟩
    · simp [ColorAnim.setup, hfrom, hto]
    · intro f t hlt
      simp only [ColorAnim.tick, ColorAnim.setup, hfrom, hto, Option.isSome_none,
        Bool.false_and, if_false, Bool.false_eq_true]
      rw [if_neg (not_le.mpr hlt)]
    · intro f t hge
      simp only [ColorAnim.tick, ColorAnim.setup, hfrom, hto, Option.isSome_none,
        Bool.false_and, if_false, Bool.false_eq_true]
      rw [if_pos hge]
    · intro _ _
      simp [ColorAnim.setup, hfrom, hto]
    · intro fp hfp
      exact absurd hfp (by simp)
    · intro tp _ htp
      exact absurd htp (by simp)
  · refine ⟨?_, ?_, ?_, ?_, ?_, ?_⟩
    · simp [ColorAnim.setup, hfrom, hto]
    · intro f t hlt
      simp only [ColorAnim.tick, ColorAnim.setup, hfrom, hto, Option.isSome_none,
        Bool.false_and, if_false, Bool.false_eq_true]
      rw [if_neg (not_le.mpr hlt)]
    · intro f t hge
      simp only [ColorAnim.tick, ColorAnim.setup, hfrom, hto, Option.isSome_none,
        Bool.false_and, if_false, Bool.false_eq_true]
      rw [if_pos hge]
    · intro _ h
      exact absurd h (by simp)
    · intro fp hfp
      exact absurd hfp (by simp)
    · intro tp' _ htp
      obtain rfl : tp = tp' := Option.some.inj htp
      simp [ColorAnim.setup, hfrom, hto]
  · refine ⟨?_, ?_, ?_, ?_, ?_, ?_⟩
    · simp [ColorAnim.setup, hfrom, hto]
    · intro f t hlt
      simp only [ColorAnim.tick, ColorAnim.setup, hfrom, hto, Option.isSome_none,
        Option.isSome_some, Bool.and_false, if_false, Bool.false_eq_true]
      rw [if_neg (not_le.mpr hlt)]
    · intro f t hge
      simp only [ColorAnim.tick, ColorAnim.setup, hfrom, hto, Option.isSome_none,
        Option.isSome_some, Bool.and_false, if_false, Bool.false_eq_true]
      rw [if_pos hge]
    · intro h _
      exact absurd h (by simp)
    · intro fp' hfp
      obtain rfl : fp = fp' := Option.some.inj hfp
      simp [ColorAnim.setup, hfrom, hto]
    · intro tp hnone _
      exact absurd hnone (by simp)
  · exfalso
    rcases hun with h | h
    · rw [hfrom] at h
      exact absurd h (by simp)
    · rw [hto] at h
      exact absurd h (by simp)

/-- C7 witness: `FillColorTo(obj, "red")` with current fill `"#336699"`:
setup normalizes the current color, `tick(1/2)` with linear easing writes
nothing, and `tick(1)` snaps to `"red"`. -/
theorem color_degraded_mode_witness :
    (ColorAnim.setup (FillColorTo.init "red") (some "#336699")).1.canLerp = false ∧
    ColorAnim.tick (ColorAnim.setup (FillColorTo.init "red") (some "#336699")).1
      (fun u => u) (1/2) = none ∧
    ColorAnim.tick (ColorAnim.setup (FillColorTo.init "red") (some "#336699")).1
      (fun u => u) 1 = some "red" :=
  ⟨(color_degraded_mode (FillColorTo.init "red") (some "#336699")
      (Or.inr (by decide))).1,
   (color_degraded_mode (FillColorTo.init "red") (some "#336699")
      (Or.inr (by decide))).2.1 (fun u => u) (1/2) (by norm_num),
   (color_degraded_mode (FillColorTo.init "red") (some "#336699")
      (Or.inr (by decide))).2.2.1 (fun u => u) 1 (by norm_num)⟩

/-! ### C10 -/

/-- A 6-digit `#rrggbb` string: a `#` followed by six lowercase hex
digits. -/
def isRRGGBB (s : String) : Bool :=
  match s.toList with
  | '#' :: rest =>
      (rest.length == 6) && rest.all fun c =>
        ('0' ≤ c && c ≤ '9') || ('a' ≤ c && c ≤ 'f')
  | _ => false

set_option maxRecDepth 4000 in
lemma hexPair_valid : ∀ n : ℕ, n ≤ 255 →
    ((('0' ≤ hexDigitChar (n / 16) && hexDigitChar (n / 16) ≤ '9')
      || ('a' ≤ hexDigitChar (n / 16) && hexDigitChar (n / 16) ≤ 'f')) = true) ∧
    ((('0' ≤ hexDigitChar (n % 16) && hexDigitChar (n % 16) ≤ '9')
      || ('a' ≤ hexDigitChar (n % 16) && hexDigitChar (n % 16) ≤ 'f')) = true) := by
  decide

lemma toHexChannel_le (x : ℚ) : toHexChannel x ≤ 255 := by
  rw [toHexChannel]
  have h : max 0 (min (roundJS x) 255) ≤ (255 : ℤ) :=
    max_le (by norm_num) (min_le_right _ _)
  omega

lemma isRRGGBB_toHex (c : Rgba) : isRRGGBB (toHex c) = true := by
  obtain ⟨h1a, h1b⟩ := hexPair_valid (toHexChannel c.r) (toHexChannel_le c.r)
  obtain ⟨h2a, h2b⟩ := hexPair_valid (toHexChannel c.g) (toHexChannel_le c.g)
  obtain ⟨h3a, h3b⟩ := hexPair_valid (toHexChannel c.b) (toHexChannel_le c.b)
  simp only [isRRGGBB, toHex, hh, String.toList]
  simp [List.all_cons, h1a, h1b, h2a, h2b, h3a, h3b]

/-- C10: whenever `FillColorTo` / `StrokeColorTo` interpolates (both
endpoints parsed), every color written by `tick` is a `#` followed by six
lowercase hex digits — and the write is unchanged under any alpha values of
the two endpoints: alpha is lerped internally but never written back. -/
theorem color_lerp_writes_six_digit_hex (anim : ColorAnim) (f : ℚ → ℚ) (t : ℚ)
    (h : anim.canLerp = true) :
    (ColorAnim.tick anim f t).isSome = true ∧
    isRRGGBB ((ColorAnim.tick anim f t).getD "") = true ∧
    (∀ α β : ℚ, ColorAnim.tick
        { anim with from' := { anim.from' with a := α },
                    to' := { anim.to' with a := β } } f t
      = ColorAnim.tick anim f t) := by
  refine ⟨?_, ?_, fun α β => rfl⟩
  · simp [ColorAnim.tick, h]
  · simp [ColorAnim.tick, h, isRRGGBB_toHex]

/-- C10 witness: a concrete interpolating state at linear half time. -/
theorem color_lerp_writes_six_digit_hex_witness :
    isRRGGBB ((ColorAnim.tick
        (⟨"#ff0000", ⟨0, 0, 0, 255⟩, ⟨255, 0, 0, 255⟩, true⟩ : ColorAnim)
        (fun u => u) (1/2)).getD "") = true ∧
    ColorAnim.tick (⟨"#ff0000", ⟨0, 0, 0, 5⟩, ⟨255, 0, 0, 77⟩, true⟩ : ColorAnim)
        (fun u => u) (1/2)
      = ColorAnim.tick (⟨"#ff0000", ⟨0, 0, 0, 255⟩, ⟨255, 0, 0, 255⟩, true⟩ : ColorAnim)
        (fun u => u) (1/2) :=
  ⟨(color_lerp_writes_six_digit_hex
      (⟨"#ff0000", ⟨0, 0, 0, 255⟩, ⟨255, 0, 0, 255⟩, true⟩ : ColorAnim)
      (fun u => u) (1/2) rfl).2.1,
   (color_lerp_writes_six_digit_hex
      (⟨"#ff0000", ⟨0, 0, 0, 255⟩, ⟨255, 0, 0, 255⟩, true⟩ : ColorAnim)
      (fun u => u) (1/2) rfl).2.2 5 77⟩

/-! ### C1 (amended theorem and witness)

Stated after the color model, since the amended claim also covers
`FillColorTo` / `StrokeColorTo`. -/

lemma lerpQ_one (a b : ℚ) : lerpQ a b 1 = b := by
  rw [lerpQ]
  ring

/-- C1 (amended): for every easing name other than `spring`, after
`setup()` then `tick(1)` each numeric primitive transform animation writes
exactly its target value: `RotateTo`, `MoveTo`, `ScaleTo` and
`StrokeWidthTo` land on the constructed `to`, `RotateBy` on
`from + delta`, `MoveBy` on `from + delta` componentwise, `ScaleBy` on
`from * factor` componentwise, and `OpacityTo` on its construction-clamped
target.  With the `spring` easing, each of them instead writes
`lerp(from, to, spring 1)`.  `FillColorTo` / `StrokeColorTo` in
interpolating mode write, at eased time 1, the normalized lowercase
`#rrggbb` re-encoding of the parsed target, which can differ from the
constructed target string: `"#FF0000"` is written back as `"#ff0000"`. -/
theorem primitive_tick_one_exact (name : EasingName)
    (hname : name ≠ EasingName.spring) :
    ((∀ from' to' : ℝ, RotateTo.tick from' to' name 1 = to') ∧
     (∀ from' delta : ℝ, RotateBy.tick from' delta name 1 = from' + delta) ∧
     (∀ fx fy tx ty : ℝ, MoveTo.tick fx fy tx ty name 1 = (tx, ty)) ∧
     (∀ fx fy dx dy : ℝ, MoveBy.tick fx fy dx dy name 1 = (fx + dx, fy + dy)) ∧
     (∀ fx fy tx ty : ℝ, ScaleTo.tick fx fy tx ty name 1 = (tx, ty)) ∧
     (∀ fx fy kx ky : ℝ, ScaleBy.tick fx fy kx ky name 1 = (fx * kx, fy * ky)) ∧
     (∀ from' v : ℝ, OpacityTo.tick from' (OpacityTo.target v) name 1 = OpacityTo.target v) ∧
     (∀ from' to' : ℝ, StrokeWidthTo.tick from' to' name 1 = to')) ∧
    ((∀ from' to' : ℝ, RotateTo.tick from' to' EasingName.spring 1
        = lerp from' to' (spring 1)) ∧
     (∀ from' delta : ℝ, RotateBy.tick from' delta EasingName.spring 1
        = lerp from' (from' + delta) (spring 1)) ∧
     (∀ fx fy tx ty : ℝ, MoveTo.tick fx fy tx ty EasingName.spring 1
        = (lerp fx tx (spring 1), lerp fy ty (spring 1))) ∧
     (∀ fx fy dx dy : ℝ, MoveBy.tick fx fy dx dy EasingName.spring 1
        = (lerp fx (fx + dx) (spring 1), lerp fy (fy + dy) (spring 1))) ∧
     (∀ fx fy tx ty : ℝ, ScaleTo.tick fx fy tx ty EasingName.spring 1
        = (lerp fx tx (spring 1), lerp fy ty (spring 1))) ∧
     (∀ fx fy kx ky : ℝ, ScaleBy.tick fx fy kx ky EasingName.spring 1
        = (lerp fx (fx * kx) (spring 1), lerp fy (fy * ky) (spring 1))) ∧
     (∀ from' to' : ℝ, OpacityTo.tick from' to' EasingName.spring 1
        = lerp from' to' (spring 1)) ∧
     (∀ from' to' : ℝ, StrokeWidthTo.tick from' to' EasingName.spring 1
        = lerp from' to' (spring 1)) ∧
     spring 1 < 1) ∧
    ((∀ (anim : ColorAnim) (f : ℚ → ℚ), anim.canLerp = true → f 1 = 1 →
        ColorAnim.tick anim f 1 = some (toHex anim.to')) ∧
     toHex ⟨255, 0, 0, 255⟩ = "#ff0000" ∧
     ("#ff0000" : String) ≠ "#FF0000" ∧
     parseHex "#FF0000" = some ⟨255, 0, 0, 255⟩) := by
  have h1 := easeAt_one name hname
  have hs := easeAt_spring_one
  refine ⟨⟨fun from' to' => ?_, fun from' delta => ?_, fun fx fy tx ty => ?_,
      fun fx fy dx dy => ?_, fun fx fy tx ty => ?_, fun fx fy kx ky => ?_,
      fun from' v => ?_, fun from' to' => ?_⟩,
    ⟨fun from' to' => ?_, fun from' delta => ?_, fun fx fy tx ty => ?_,
      fun fx fy dx dy => ?_, fun fx fy tx ty => ?_, fun fx fy kx ky => ?_,
      fun from' to' => ?_, fun from' to' => ?_, spring_one_lt_one⟩,
    ?_, ?_, ?_, ?_⟩
  · rw [RotateTo.tick, h1, lerp_one]
  · rw [RotateBy.tick, h1, lerp_one]
  · rw [MoveTo.tick, h1, lerp_one, lerp_one]
  · rw [MoveBy.tick, h1, lerp_one, lerp_one]
  · rw [ScaleTo.tick, h1, lerp_one, lerp_one]
  · rw [ScaleBy.tick, h1, lerp_one, lerp_one]
  · rw [OpacityTo.tick, h1, lerp_one]
  · rw [StrokeWidthTo.tick, h1, lerp_one]
  · rw [RotateTo.tick, hs]
  · rw [RotateBy.tick, hs]
  · rw [MoveTo.tick, hs]
  · rw [MoveBy.tick, hs]
  · rw [ScaleTo.tick, hs]
  · rw [ScaleBy.tick, hs]
  · rw [OpacityTo.tick, hs]
  · rw [StrokeWidthTo.tick, hs]
  · intro anim f hcan hf1
    have hclamp : (if (1:ℚ) < 0 then (0:ℚ) else if (1:ℚ) > 1 then 1 else 1) = 1 := by
      norm_num
    simp only [ColorAnim.tick, hclamp, hf1, hcan, if_true]
    rw [lerpQ_one, lerpQ_one, lerpQ_one, lerpQ_one]
  · norm_num [toHex, toHexChannel, roundJS, hh, hexDigitChar, Int.toNat_ofNat]
    decide
  · decide
  · rfl

/-- C1 witness: the amended endpoint exactness at the `bounce` easing with
rotation going from 2 to 5, and a concrete interpolating color animation
whose `tick(1)` writes the normalized target. -/
theorem primitive_tick_one_exact_witness :
    EasingName.bounce ≠ EasingName.spring ∧
    RotateTo.tick 2 5 EasingName.bounce 1 = 5 ∧
    ColorAnim.tick (⟨"#FF0000", ⟨0, 0, 0, 255⟩, ⟨255, 0, 0, 255⟩, true⟩ : ColorAnim)
        (fun u => u) 1
      = some (toHex (⟨255, 0, 0, 255⟩ : Rgba)) :=
  ⟨by decide,
   (primitive_tick_one_exact EasingName.bounce (by decide)).1.1 2 5,
   (primitive_tick_one_exact EasingName.bounce (by decide)).2.2.1
     (⟨"#FF0000", ⟨0, 0, 0, 255⟩, ⟨255, 0, 0, 255⟩, true⟩ : ColorAnim)
     (fun u => u) rfl rfl⟩

end Munny
